import Mathlib

/-!
A verification development for the k-means clustering engine vendored in
`ruby-umappp` (the `kmeans` headers: `Details.hpp`, `is_edge_case.hpp`,
`compute_centroids.hpp`, `compute_wcss.hpp`, `Lloyd.hpp`, `MiniBatch.hpp`,
`HartiganWong.hpp`, `QuickSearch.hpp`, `InitializeKmeansPP.hpp`,
`InitializeRandom.hpp`, `InitializeNone.hpp`, `InitializePCAPartition.hpp`,
`random.hpp`).

Embedding conventions:
* `DATA_t` (`double` in the sources) is modelled by a `LinearOrderedField`
  wherever only field arithmetic is used, so concrete computations can be run
  over `ℚ`; components that use `std::sqrt` (the vantage-point tree and the
  refiners built on it) are modelled over `ℝ` with `Real.sqrt`.
* `INDEX_t`/`CLUSTER_t` counts are `ℕ` where the source only counts upward;
  signed quantities (the requested number of centers, step budgets and the
  Hartigan-Wong `live` offsets) are `ℤ`, matching the default `int`
  instantiation of the templates.
* caller-owned buffers (`data`, `centers`, `clusters`) are total functions;
  a "run" returns the updated buffer next to the `Details` report instead of
  mutating it in place.
* `std::mt19937_64` is embedded as an explicit state-passing generator; code
  that is templated over the engine (`SAMPLER& rng`) is likewise parametric
  over the generator here.
-/

namespace KmeansSpec

open Classical

/-- `kmeans::Details` (Details.hpp): per-cluster sizes, per-cluster
within-cluster sums of squares, iteration count and status code. -/
structure Details (α : Type) where
  sizes : List ℕ
  withinss : List α
  iterations : ℤ
  status : ℤ
  deriving Repr, DecidableEq

/-- `kmeans::is_edge_case` (is_edge_case.hpp line 12):
`ncenters <= 1 || static_cast<INDEX_t>(ncenters) >= nobs`. -/
def isEdgeCase (nobs : ℕ) (ncenters : ℤ) : Bool :=
  decide (ncenters ≤ 1 ∨ (nobs : ℤ) ≤ ncenters)

/-- `kmeans::compute_centroids` (compute_centroids.hpp): zero the first
`ncenters` columns, accumulate each observation into its cluster's column and
divide by the cluster size when the size is nonzero.  Entries outside the
written `ndim × ncenters` block keep their previous contents. -/
def computeCentroids {α : Type} [LinearOrderedField α]
    (ndim nobs : ℕ) (data : ℕ → ℕ → α) (ncenters : ℕ)
    (centers : ℕ → ℕ → α) (clusters : ℕ → ℕ) (sizes : List ℕ) : ℕ → ℕ → α :=
  fun c d =>
    if c < ncenters ∧ d < ndim then
      let s : α := ∑ obs ∈ (Finset.range nobs).filter (fun o => clusters o = c),
        data obs d
      if sizes.getD c 0 ≠ 0 then s / (sizes.getD c 0 : α) else s
    else centers c d

/-- `kmeans::compute_wcss` (compute_wcss.hpp): for each cluster, the sum of
squared coordinate differences between its observations and its centroid. -/
def computeWcss {α : Type} [LinearOrderedField α]
    (ndim nobs : ℕ) (data : ℕ → ℕ → α) (ncenters : ℕ)
    (centers : ℕ → ℕ → α) (clusters : ℕ → ℕ) : List α :=
  (List.range ncenters).map (fun c =>
    ∑ obs ∈ (Finset.range nobs).filter (fun o => clusters o = c),
      ∑ d ∈ Finset.range ndim, (data obs d - centers c d) ^ 2)

/-- `kmeans::process_edge_case` (is_edge_case.hpp lines 17-38).
Returns the `Details` report together with the updated `centers` and
`clusters` buffers.  The three branches mirror the source: `ncenters == 1`
(all observations in cluster 0), `ncenters >= nobs` (each observation its own
singleton cluster, status 3 when strictly more centers than observations), and
the residual `ncenters <= 0` branch returning `Details(0, 3)` — a plain
status-code return with empty `sizes`/`withinss`, not a thrown error. -/
def processEdgeCase {α : Type} [LinearOrderedField α]
    (ndim nobs : ℕ) (data : ℕ → ℕ → α) (ncenters : ℤ)
    (centers : ℕ → ℕ → α) (clusters : ℕ → ℕ) :
    Details α × (ℕ → ℕ → α) × (ℕ → ℕ) :=
  if ncenters = 1 then
    let clusters' : ℕ → ℕ := fun o => if o < nobs then 0 else clusters o
    let sizes : List ℕ := [nobs]
    let centers' := computeCentroids ndim nobs data 1 centers clusters' sizes
    let wcss := computeWcss ndim nobs data 1 centers' clusters'
    (⟨sizes, wcss, 0, 0⟩, centers', clusters')
  else if (nobs : ℤ) ≤ ncenters then
    let k := ncenters.toNat
    let clusters' : ℕ → ℕ := fun o => if o < nobs then o else clusters o
    let sizes : List ℕ := (List.range k).map (fun c => if c < nobs then 1 else 0)
    let centers' := computeCentroids ndim nobs data k centers clusters' sizes
    let wcss := computeWcss ndim nobs data k centers' clusters'
    (⟨sizes, wcss, 0, if (nobs : ℤ) < ncenters then 3 else 0⟩, centers', clusters')
  else
    (⟨[], [], 0, 3⟩, centers, clusters)

/-- A concrete 1-dimensional dataset over `ℚ`: observation `o` sits at `o`. -/
def exData : ℕ → ℕ → ℚ := fun o _ => (o : ℚ)

/-- A concrete all-zero centers buffer over `ℚ`. -/
def exCenters0 : ℕ → ℕ → ℚ := fun _ _ => 0

/-- A concrete junk-filled clusters buffer. -/
def exClusters0 : ℕ → ℕ := fun _ => 7

/-- `kmeans::QuickSearch::raw_distance` (QuickSearch.hpp lines 25-31): the sum
of squared coordinate differences over the first `ndim` dimensions. -/
def rawDistance (ndim : ℕ) (x y : ℕ → ℝ) : ℝ :=
  ∑ d ∈ Finset.range ndim, (x d - y d) ^ 2

/-- `normalize(raw_distance(x, y))`, i.e. the Euclidean distance actually
compared inside the vantage-point tree (`normalize` is `std::sqrt`). -/
noncomputable def qsDist (ndim : ℕ) (x y : ℕ → ℝ) : ℝ :=
  Real.sqrt (rawDistance ndim x y)

/-- A vantage-point tree.  The source stores nodes in a flat vector with
integer child links and `LEAF_MARKER = -1` for an absent child; here an absent
child is the `leaf` constructor and a node carries its radius (`threshold`),
the original index of the vantage point, and the two children. -/
inductive VPTree where
  | leaf : VPTree
  | node (threshold : ℝ) (index : ℕ) (left right : VPTree) : VPTree

/-- `true` iff the node-index would be `LEAF_MARKER` in the source. -/
def VPTree.isLeaf : VPTree → Bool
  | .leaf => true
  | .node _ _ _ _ => false

/-- The original point indices stored in (the vantage points of) a subtree. -/
def VPTree.members : VPTree → List ℕ
  | .leaf => []
  | .node _ i l r => i :: (l.members ++ r.members)

/-- `QuickSearch::buildFromPoints` (QuickSearch.hpp lines 50-101), acting on
the `[lower, upper)` slice of `items` directly as a list.  The pivot draw is
`rng() % gap`; the swap moves the drawn item to the front; `std::nth_element`
around the median distance is modelled as a full sort by distance to the
vantage point, which is one behaviour permitted by the `nth_element`
contract (elements before the median compare `<=` it, elements after `>=`).
The `SAMPLER` template parameter becomes the explicit generator `rng` with
threaded state `g`. -/
noncomputable def buildFromPoints {σ : Type} (ndim : ℕ) (rng : σ → ℕ × σ) :
    List (ℕ × (ℕ → ℝ)) → σ → VPTree × σ
  | [], g => (.leaf, g)
  | [x], g => (.node 0 x.1 .leaf .leaf, g)
  | x :: y :: ys, g =>
    let items := x :: y :: ys
    let gap := items.length
    let dg := rng g
    let i := dg.1 % gap
    let vantage := items.getD i x
    let rest := (items.set i x).tail
    let sorted := rest.mergeSort (fun a b =>
      decide (rawDistance ndim vantage.2 a.2 ≤ rawDistance ndim vantage.2 b.2))
    let m := gap / 2 - 1
    let median := sorted.getD m x
    let threshold := Real.sqrt (rawDistance ndim vantage.2 median.2)
    let lb := buildFromPoints ndim rng (sorted.take m) dg.2
    let rb := buildFromPoints ndim rng (sorted.drop m) lb.2
    (.node threshold vantage.1 lb.1 rb.1, rb.2)
termination_by l _ => l.length
decreasing_by
  all_goals simp [List.length_mergeSort, List.length_set, List.length_take,
    List.length_drop]
  all_goals omega

/-- `QuickSearch::search_nn` (QuickSearch.hpp lines 104-145).  The state is
the `(closest, tau)` pair that the source threads by reference; the second
recursive call sees the radius shrunk by the first, exactly as in the
source. -/
noncomputable def searchNN (ndim : ℕ) (reference : ℕ → ℕ → ℝ) (target : ℕ → ℝ) :
    VPTree → ℕ × ℝ → ℕ × ℝ
  | .leaf, ct => ct
  | .node threshold index l r, ct =>
    let dist := Real.sqrt (rawDistance ndim (reference index) target)
    let ct1 := if dist < ct.2 then (index, dist) else ct
    if l.isLeaf && r.isLeaf then ct1
    else if dist < threshold then
      let ct2 := if dist - ct1.2 ≤ threshold then searchNN ndim reference target l ct1
        else ct1
      if threshold ≤ dist + ct2.2 then searchNN ndim reference target r ct2 else ct2
    else
      let ct2 := if threshold ≤ dist + ct1.2 then searchNN ndim reference target r ct1
        else ct1
      if dist - ct2.2 ≤ threshold then searchNN ndim reference target l ct2 else ct2

/-- `std::numeric_limits<double>::max()`, the initial radius in
`QuickSearch::find` (QuickSearch.hpp line 163). -/
def dblMax : ℝ := (2 ^ 53 - 1) * 2 ^ 971

/-- `QuickSearch::find` (QuickSearch.hpp lines 162-167): start from
`closest = 0` and `tau = DBL_MAX` and search from the root. -/
noncomputable def qsFind (ndim : ℕ) (reference : ℕ → ℕ → ℝ) (tree : VPTree)
    (query : ℕ → ℝ) : ℕ :=
  (searchNN ndim reference query tree (0, dblMax)).1

/-- The `QuickSearch` constructor (QuickSearch.hpp lines 148-160): pair each
of the `nobs` reference columns with its index and build the tree.  The
source seeds a fresh `std::mt19937_64(1234567890)` here; the generator is
kept as a parameter, to be instantiated with the embedded engine. -/
noncomputable def quickSearchTree {σ : Type} (ndim nobs : ℕ)
    (reference : ℕ → ℕ → ℝ) (rng : σ → ℕ × σ) (g : σ) : VPTree :=
  (buildFromPoints ndim rng ((List.range nobs).map (fun i => (i, reference i))) g).1

/-- Well-formedness of a vantage-point tree relative to the reference points:
every point in the left subtree is within the node's radius of its vantage
point, every point in the right subtree at least the radius away.  This is
what `buildFromPoints` guarantees through its `nth_element` partition. -/
inductive VPWF (ndim : ℕ) (reference : ℕ → ℕ → ℝ) : VPTree → Prop where
  | leaf : VPWF ndim reference .leaf
  | node (t : ℝ) (i : ℕ) (l r : VPTree)
      (hl : ∀ j ∈ l.members, qsDist ndim (reference i) (reference j) ≤ t)
      (hr : ∀ j ∈ r.members, t ≤ qsDist ndim (reference i) (reference j))
      (wl : VPWF ndim reference l) (wr : VPWF ndim reference r) :
      VPWF ndim reference (.node t i l r)

/-- Postcondition of one `search_nn` stage over a set `M` of candidate
indices: the radius never grows, every candidate in `M` is ruled out at the
final radius, and the final state is either untouched or records a genuine
candidate together with its exact distance. -/
def SearchOut (ndim : ℕ) (reference : ℕ → ℕ → ℝ) (target : ℕ → ℝ)
    (M : List ℕ) (s s' : ℕ × ℝ) : Prop :=
  s'.2 ≤ s.2 ∧ (∀ j ∈ M, s'.2 ≤ qsDist ndim (reference j) target) ∧
    (s' = s ∨ (s'.1 ∈ M ∧ s'.2 = qsDist ndim (reference s'.1) target))

/-- Concrete two-point reference set (1-dimensional, at 0 and 3). -/
def exRef : ℕ → ℕ → ℝ := fun c _ => if c = 0 then 0 else 3

/-- A trivial pivot sampler (the claim quantifies over all samplers). -/
def exRng : Unit → ℕ × Unit := fun _ => (0, ())

/-- Concrete query point at 1. -/
def exQuery : ℕ → ℝ := fun _ => 1

/-- A node of the source's flat node vector (QuickSearch.hpp lines 38-44):
radius, original index of the vantage point, and child node-vector indices
with `none` standing for `LEAF_MARKER = -1`. -/
structure QsNode where
  threshold : ℝ
  index : ℕ
  left : Option ℕ
  right : Option ℕ

/-- `buildFromPoints` again, but materializing the flat node vector of the
source instead of an inductive tree: a node is appended at `pos`, the
children are built afterwards (so child indices are strictly larger), and
the node's fields are fixed up at the end, as the source does through the
`Node&` reference.  Returns (root node index or `LEAF_MARKER`, generator
state, node vector). -/
noncomputable def buildArena {σ : Type} (ndim : ℕ) (rng : σ → ℕ × σ) :
    List (ℕ × (ℕ → ℝ)) → σ → List QsNode → Option ℕ × σ × List QsNode
  | [], g, nodes => (none, g, nodes)
  | [x], g, nodes => (some nodes.length, g, nodes ++ [⟨0, x.1, none, none⟩])
  | x :: y :: ys, g, nodes =>
    let items := x :: y :: ys
    let gap := items.length
    let dg := rng g
    let i := dg.1 % gap
    let vantage := items.getD i x
    let rest := (items.set i x).tail
    let sorted := rest.mergeSort (fun a b =>
      decide (rawDistance ndim vantage.2 a.2 ≤ rawDistance ndim vantage.2 b.2))
    let m := gap / 2 - 1
    let median := sorted.getD m x
    let threshold := Real.sqrt (rawDistance ndim vantage.2 median.2)
    let pos := nodes.length
    let lres := buildArena ndim rng (sorted.take m) dg.2
      (nodes ++ [⟨threshold, vantage.1, none, none⟩])
    let rres := buildArena ndim rng (sorted.drop m) lres.2.1 lres.2.2
    (some pos, rres.2.1,
      (rres.2.2).set pos ⟨threshold, vantage.1, lres.1, rres.1⟩)
termination_by l _ _ => l.length
decreasing_by
  all_goals simp [List.length_mergeSort, List.length_set, List.length_take,
    List.length_drop]
  all_goals omega

/-- `search_nn` over the flat node vector.  A lookup outside the vector —
which the source performs as `nodes[curnode_index]` with no bounds check —
is modelled as an explicit out-of-range error.  `fuel` bounds the recursion
depth; children sit at strictly larger arena indices, so any fuel above
`nodes.length` is enough for a well-formed arena. -/
noncomputable def searchArena (ndim : ℕ) (reference : ℕ → ℕ → ℝ) (target : ℕ → ℝ)
    (nodes : List QsNode) :
    ℕ → Option ℕ → ℕ × ℝ → Except String (ℕ × ℝ)
  | _, none, ct => .ok ct
  | 0, some _, _ => .error "fuel exhausted"
  | fuel + 1, some cur, ct =>
    match nodes.get? cur with
    | none => .error "node index out of range"
    | some curnode =>
      let dist := Real.sqrt (rawDistance ndim (reference curnode.index) target)
      let ct1 := if dist < ct.2 then (curnode.index, dist) else ct
      if curnode.left = none ∧ curnode.right = none then .ok ct1
      else if dist < curnode.threshold then
        match (if dist - ct1.2 ≤ curnode.threshold
            then searchArena ndim reference target nodes fuel curnode.left ct1
            else .ok ct1) with
        | .error e => .error e
        | .ok ct2 =>
          if curnode.threshold ≤ dist + ct2.2
            then searchArena ndim reference target nodes fuel curnode.right ct2
            else .ok ct2
      else
        match (if curnode.threshold ≤ dist + ct1.2
            then searchArena ndim reference target nodes fuel curnode.right ct1
            else .ok ct1) with
        | .error e => .error e
        | .ok ct2 =>
          if dist - ct2.2 ≤ curnode.threshold
            then searchArena ndim reference target nodes fuel curnode.left ct2
            else .ok ct2

/-- `QuickSearch::find` on the flat-arena representation: the search always
starts at node-vector index 0 (the literal `search_nn(0, ...)` of line 165),
whether or not a node 0 exists. -/
noncomputable def findArena {σ : Type} (ndim nobs : ℕ) (reference : ℕ → ℕ → ℝ)
    (rng : σ → ℕ × σ) (g : σ) (query : ℕ → ℝ) : Except String ℕ :=
  let nodes :=
    (buildArena ndim rng ((List.range nobs).map (fun i => (i, reference i))) g []).2.2
  match searchArena ndim reference query nodes (nodes.length + 1) (some 0)
      (0, dblMax) with
  | .error e => .error e
  | .ok ct => .ok ct.1

/-- Word `i` of the `std::mt19937_64` seeding sequence:
`mt[0] = seed`, `mt[i] = 6364136223846793005 * (mt[i-1] ^ (mt[i-1] >> 62)) + i`
(mod 2^64). -/
def mtWord (seed : ℕ) : ℕ → ℕ
  | 0 => seed % 2 ^ 64
  | i + 1 =>
    (6364136223846793005 * (mtWord seed i ^^^ (mtWord seed i >>> 62)) + (i + 1))
      % 2 ^ 64

/-- One in-place step of the MT19937-64 twist at position `i` (updates use
the partially twisted array, as in the reference implementation). -/
def mtTwistStep (a : ℕ → ℕ) (i : ℕ) : ℕ → ℕ :=
  let x := (a i &&& 0xFFFFFFFF80000000) ||| (a ((i + 1) % 312) &&& 0x7FFFFFFF)
  let xA := (x >>> 1) ^^^ (if x % 2 = 1 then 0xB5026F5AA96619E9 else 0)
  let v := a ((i + 156) % 312) ^^^ xA
  fun j => if j = i then v else a j

/-- The full MT19937-64 twist. -/
def mtTwist (a : ℕ → ℕ) : ℕ → ℕ :=
  (List.range 312).foldl mtTwistStep a

/-- The MT19937-64 tempering of one word. -/
def mtTemper (y : ℕ) : ℕ :=
  let y1 := y ^^^ ((y >>> 29) &&& 0x5555555555555555)
  let y2 := y1 ^^^ ((y1 <<< 17) &&& 0x71D67FFFEDA60000)
  let y3 := y2 ^^^ ((y2 <<< 37) &&& 0xFFF7EEE000000000)
  y3 ^^^ (y3 >>> 43)

/-- The `std::mt19937_64` engine state: the 312-word array (as a function)
and the next read position. -/
structure MTState where
  mt : ℕ → ℕ
  mti : ℕ

/-- `std::mt19937_64(seed)`. -/
def mt19937Init (seed : ℕ) : MTState := ⟨mtWord seed, 312⟩

/-- One `operator()` call of `std::mt19937_64`. -/
def mtNext (s : MTState) : ℕ × MTState :=
  if s.mti ≥ 312 then
    let a := mtTwist s.mt
    (mtTemper (a 0), ⟨a, 1⟩)
  else
    (mtTemper (s.mt s.mti), ⟨s.mt, s.mti + 1⟩)

/-- The state Lloyd's loop threads between iterations: the two caller
buffers plus the `sizes` vector and the sticky empty-cluster status. -/
structure LloydState where
  centers : ℕ → ℕ → ℝ
  clusters : ℕ → ℕ
  sizes : List ℕ
  status : ℤ

/-- The iteration loop of `Lloyd::run` (Lloyd.hpp lines 97-144).  Each pass
builds a fresh `QuickSearch` over the current centers (the source constructs
it with a fresh `mt19937_64(1234567890)` each time), assigns every
observation to its nearest center, stops if nothing changed (leaving
`sizes`/`status` as they were), and otherwise recounts cluster sizes, flags
status 1 on an empty cluster, and recomputes the centroids.  `remaining`
counts the loop iterations still allowed; the returned first component is
the value of `iter` at exit. -/
noncomputable def lloydLoop (ndim nobs : ℕ) (data : ℕ → ℕ → ℝ) (k : ℕ) :
    ℕ → ℕ → LloydState → ℕ × LloydState
  | 0, iter, s => (iter, s)
  | rem + 1, iter, s =>
    let tree := quickSearchTree ndim k s.centers mtNext (mt19937Init 1234567890)
    let copy : ℕ → ℕ := fun obs => qsFind ndim s.centers tree (data obs)
    if ∃ obs, obs < nobs ∧ copy obs ≠ s.clusters obs then
      let clusters' : ℕ → ℕ := fun o => if o < nobs then copy o else s.clusters o
      let sizes' := (List.range k).map
        (fun c => ((Finset.range nobs).filter (fun o => clusters' o = c)).card)
      let status' : ℤ := if ∃ c, c < k ∧ sizes'.getD c 0 = 0 then 1 else s.status
      let centers' := computeCentroids ndim nobs data k s.centers clusters' sizes'
      lloydLoop ndim nobs data k rem (iter + 1) ⟨centers', clusters', sizes', status'⟩
    else (iter, s)

/-- `Lloyd::run` (Lloyd.hpp lines 88-156): edge cases short-circuit;
otherwise run the loop from `iter = 1` with zeroed sizes and status 0; a
fully exhausted budget (`iter == maxiter + 1`) overrides the status with 2;
the WCSS is computed once at the very end. -/
noncomputable def lloydRun (maxiter : ℕ) (ndim nobs : ℕ) (data : ℕ → ℕ → ℝ)
    (ncenters : ℤ) (centers : ℕ → ℕ → ℝ) (clusters : ℕ → ℕ) :
    Details ℝ × (ℕ → ℕ → ℝ) × (ℕ → ℕ) :=
  if isEdgeCase nobs ncenters then
    processEdgeCase ndim nobs data ncenters centers clusters
  else
    let k := ncenters.toNat
    let res := lloydLoop ndim nobs data k maxiter 1
      ⟨centers, clusters, List.replicate k 0, 0⟩
    let status : ℤ := if res.1 = maxiter + 1 then 2 else res.2.status
    (⟨res.2.sizes, computeWcss ndim nobs data k res.2.centers res.2.clusters,
        (res.1 : ℤ), status⟩,
      res.2.centers, res.2.clusters)

/-- 1-d dataset 0, 1, 10 (three observations). -/
noncomputable def lloydExData : ℕ → ℕ → ℝ := fun o _ => if o = 0 then 0 else if o = 1 then 1 else 10

/-- Centers 1/2 and 10 — exactly the cluster means of the dataset under the
assignment below. -/
noncomputable def lloydExCenters : ℕ → ℕ → ℝ := fun c _ => if c = 0 then 1/2 else 10

/-- The converged assignment: observations 0 and 1 in cluster 0,
observation 2 in cluster 1. -/
def lloydExClusters : ℕ → ℕ := fun o => if o ≤ 1 then 0 else 1

/-- The waiting loop of `kmeans::sample_without_replacement` (random.hpp
lines 19-26).  `us` is the stream of `aarand::standard_uniform` draws (the
source's `mt19937_64` pushed through `standard_uniform`), `pos` the next
unread position.  The loop body pushes `traversed` when
`(choose - sofar.size()) > (population - traversed) * u`; both operands are
computed in `double`, modelled as `ℝ`.  `fuel` makes the recursion total;
`population + choose + 1` steps suffice for genuine `[0,1)` draws. -/
noncomputable def swrLoop (population choose : ℕ) (us : ℕ → ℝ) :
    ℕ → List ℕ → ℕ → ℕ → Option (List ℕ × ℕ)
  | 0, _, _, _ => none
  | fuel + 1, sofar, traversed, pos =>
    if sofar.length < choose then
      if ((choose : ℝ) - sofar.length) > ((population : ℝ) - traversed) * us pos then
        swrLoop population choose us fuel (sofar ++ [traversed]) (traversed + 1) (pos + 1)
      else
        swrLoop population choose us fuel sofar (traversed + 1) (pos + 1)
    else some (sofar, pos)

/-- `kmeans::sample_without_replacement` (random.hpp lines 10-30).  The
`choose` argument is received as `size_t`, so a negative `CLUSTER_t` value
wraps to a huge unsigned count — modelled by `(choose % 2^64).toNat`.  When
`choose >= population` the whole population `0 .. population-1` is returned
via `std::iota` and no randomness is consumed. -/
noncomputable def sampleWithoutReplacement (population : ℕ) (choose : ℤ)
    (us : ℕ → ℝ) (pos : ℕ) : Option (List ℕ × ℕ) :=
  let c := (choose % (2 ^ 64 : ℤ)).toNat
  if population ≤ c then some (List.range population, pos)
  else swrLoop population c us (population + c + 1) [] 0 pos

/-- Increment slot `c` of a counter vector. -/
def bump (f : ℕ → ℕ) (c : ℕ) : ℕ → ℕ := fun x => if x = c then f x + 1 else f x

/-- One step of the running-mean centroid update of `MiniBatch::run`
(MiniBatch.hpp lines 221-231): `++total_sampled[c]` then
`center[c] += (point - center[c]) / n` over the `ndim` dimensions.  The
state is `(total_sampled, centers)`. -/
noncomputable def mbUpdateStep (ndim : ℕ) (data : ℕ → ℕ → ℝ) (clusters : ℕ → ℕ)
    (st : (ℕ → ℕ) × (ℕ → ℕ → ℝ)) (o : ℕ) : (ℕ → ℕ) × (ℕ → ℕ → ℝ) :=
  let c := clusters o
  let n := st.1 c + 1
  (bump st.1 c,
   fun c' d => if c' = c ∧ d < ndim
     then st.2 c' d + (data o d - st.2 c' d) / (n : ℝ)
     else st.2 c' d)

/-- One step of the reassignment bookkeeping of `MiniBatch::run`
(MiniBatch.hpp lines 235-242).  The state is
`(last_sampled, last_changed)`. -/
def mbTrackStep (previous clusters : ℕ → ℕ) (st : (ℕ → ℕ) × (ℕ → ℕ)) (o : ℕ) :
    (ℕ → ℕ) × (ℕ → ℕ) :=
  let ls := bump st.1 (previous o)
  if previous o ≠ clusters o then
    (bump ls (clusters o), bump (bump st.2 (previous o)) (clusters o))
  else (ls, st.2)

/-- The state `MiniBatch::run` threads between iterations. -/
structure MBState where
  centers : ℕ → ℕ → ℝ
  clusters : ℕ → ℕ
  previous : ℕ → ℕ
  totalSampled : ℕ → ℕ
  lastChanged : ℕ → ℕ
  lastSampled : ℕ → ℕ
  pos : ℕ

/-- The iteration loop of `MiniBatch::run` (MiniBatch.hpp lines 194-260):
draw a batch, record the previous assignments of the batch (from the second
iteration on), assign every batch member to its nearest current center via a
fresh `QuickSearch` (seeded `mt19937_64(1234567890)`), fold the running-mean
updates, fold the change tracking, and every `history` iterations break if
no cluster saw too many reassignments, else zero the tracking counters.
`none` only when the sampling fuel runs out. -/
noncomputable def miniBatchLoop (ndim nobs : ℕ) (data : ℕ → ℕ → ℝ) (k : ℕ)
    (actualBatch : ℤ) (history : ℕ) (maxChange : ℝ) (us : ℕ → ℝ) :
    ℕ → ℕ → MBState → Option (ℕ × MBState)
  | 0, iter, s => some (iter, s)
  | rem + 1, iter, s =>
    match sampleWithoutReplacement nobs actualBatch us s.pos with
    | none => none
    | some (chosen, pos') =>
      let previous' := if iter = 1 then s.previous
        else fun o => if o ∈ chosen then s.clusters o else s.previous o
      let tree := quickSearchTree ndim k s.centers mtNext (mt19937Init 1234567890)
      let clusters' := fun o =>
        if o ∈ chosen then qsFind ndim s.centers tree (data o) else s.clusters o
      let upd := chosen.foldl (mbUpdateStep ndim data clusters')
        (s.totalSampled, s.centers)
      if iter = 1 then
        miniBatchLoop ndim nobs data k actualBatch history maxChange us rem (iter + 1)
          ⟨upd.2, clusters', previous', upd.1, s.lastChanged, s.lastSampled, pos'⟩
      else
        let tr := chosen.foldl (mbTrackStep previous' clusters')
          (s.lastSampled, s.lastChanged)
        if iter % history = 1 then
          if ∃ c, c < k ∧ (tr.2 c : ℝ) ≥ (tr.1 c : ℝ) * maxChange then
            miniBatchLoop ndim nobs data k actualBatch history maxChange us rem (iter + 1)
              ⟨upd.2, clusters', previous', upd.1, fun _ => 0, fun _ => 0, pos'⟩
          else some (iter, ⟨upd.2, clusters', previous', upd.1, tr.2, tr.1, pos'⟩)
        else
          miniBatchLoop ndim nobs data k actualBatch history maxChange us rem (iter + 1)
            ⟨upd.2, clusters', previous', upd.1, tr.2, tr.1, pos'⟩

/-- `MiniBatch::run` (MiniBatch.hpp lines 180-304): edge-case shortcut;
loop; `status = 2` on an exhausted budget; then one full assignment pass
over all observations, a recount of the per-cluster sizes (overriding the
status with 1 if any cluster came out empty), a final centroid
recomputation, and the WCSS. -/
noncomputable def miniBatchRun (maxiter : ℕ) (batchSize : ℤ) (history : ℕ)
    (maxChange : ℝ) (us : ℕ → ℝ) (ndim nobs : ℕ) (data : ℕ → ℕ → ℝ)
    (ncenters : ℤ) (centers : ℕ → ℕ → ℝ) (clusters : ℕ → ℕ) :
    Option (Details ℝ × (ℕ → ℕ → ℝ) × (ℕ → ℕ)) :=
  if isEdgeCase nobs ncenters then
    some (processEdgeCase ndim nobs data ncenters centers clusters)
  else
    let k := ncenters.toNat
    let actualBatch := min batchSize (nobs : ℤ)
    match miniBatchLoop ndim nobs data k actualBatch history maxChange us maxiter 1
        ⟨centers, clusters, fun _ => 0, fun _ => 0, fun _ => 0, fun _ => 0, 0⟩ with
    | none => none
    | some (iter, s) =>
      let status : ℤ := if iter = maxiter + 1 then 2 else 0
      let tree := quickSearchTree ndim k s.centers mtNext (mt19937Init 1234567890)
      let clusters' := fun o =>
        if o < nobs then qsFind ndim s.centers tree (data o) else s.clusters o
      let sizes := (List.range k).map
        (fun c => ((Finset.range nobs).filter (fun o => clusters' o = c)).card)
      let status' : ℤ := if ∃ c, c < k ∧ sizes.getD c 0 = 0 then 1 else status
      let centers' := computeCentroids ndim nobs data k s.centers clusters' sizes
      some (⟨sizes, computeWcss ndim nobs data k centers' clusters', (iter : ℤ), status'⟩,
        centers', clusters')

/-- Number of observations the assignment sends to cluster `c`. -/
def clusterCount (nobs : ℕ) (clusters : ℕ → ℕ) (c : ℕ) : ℕ :=
  ((List.range nobs).filter (fun o => clusters o = c)).length

/-- `BIG = 1e30` (HartiganWong.hpp line 68). -/
noncomputable def hwBig : ℝ := 1e30

/-- The mutable state of `HartiganWong::run`: the centers buffer, the
best/second-best assignments `ic1`/`ic2`, cluster sizes `nc`, the transfer
coefficients `an1`/`an2`, the shifted last-update steps `ncp` (stored with
the `ncp_shift = 2` offset of lines 75-101), the cached adjusted distances
`d`, the quick-transfer flags `itran`, the live-set markers `live` (signed:
the post-pass `live[cen] -= num_obs` of line 386 may go negative for the
default `int` instantiation), and the no-transfer run length `indx`. -/
structure HWState where
  centers : ℕ → ℕ → ℝ
  ic1 : ℕ → ℕ
  ic2 : ℕ → ℕ
  nc : ℕ → ℕ
  an1 : ℕ → ℝ
  an2 : ℕ → ℝ
  ncp : ℕ → ℤ
  d : ℕ → ℝ
  itran : ℕ → Bool
  live : ℕ → ℤ
  indx : ℤ

/-- `HartiganWong::transfer_point` (HartiganWong.hpp lines 465-487): move
observation `obs` from cluster `l1` to `l2`, updating both centroids by the
incremental reweighting formulas, the sizes, `an1`/`an2`, and recording
`ic1[obs] = l2`, `ic2[obs] = l1`.  (The two clusters are distinct at every
call site; the nested `if` gives `l1` priority, which matches the source for
`l1 ≠ l2`.) -/
noncomputable def transferPoint (ndim : ℕ) (data : ℕ → ℕ → ℝ) (s : HWState)
    (obs l1 l2 : ℕ) : HWState :=
  let al1 : ℝ := s.nc l1
  let alw : ℝ := al1 - 1
  let al2 : ℝ := s.nc l2
  let alt : ℝ := al2 + 1
  { s with
    centers := fun c dd =>
      if dd < ndim then
        if c = l1 then (s.centers l1 dd * al1 - data obs dd) / alw
        else if c = l2 then (s.centers l2 dd * al2 + data obs dd) / alt
        else s.centers c dd
      else s.centers c dd,
    nc := fun c => if c = l1 then s.nc l1 - 1
      else if c = l2 then s.nc l2 + 1 else s.nc c,
    an2 := fun c => if c = l1 then alw / al1
      else if c = l2 then alt / (alt + 1) else s.an2 c,
    an1 := fun c => if c = l1 then (if alw > 1 then alw / (alw - 1) else hwBig)
      else if c = l2 then alt / al2 else s.an1 c,
    ic1 := Function.update s.ic1 obs l2,
    ic2 := Function.update s.ic2 obs l1 }

/-- The candidate scan of the optimal-transfer body (HartiganWong.hpp lines
337-354): the minimising cluster under the live-set skip rule
`(obs >= live[l1] && obs >= live[cen]) || cen == l1 || cen == ll`, seeded
with the current second-best cluster `ll` and its weighted distance. -/
noncomputable def otsCandidate (ndim k obs : ℕ) (data : ℕ → ℕ → ℝ)
    (s0 : HWState) (l1 ll : ℕ) : ℕ × ℝ :=
  (List.range k).foldl (fun (acc : ℕ × ℝ) cen =>
    if ((obs : ℤ) ≥ s0.live l1 ∧ (obs : ℤ) ≥ s0.live cen) ∨ cen = l1 ∨ cen = ll
    then acc
    else
      if rawDistance ndim (data obs) (s0.centers cen) < acc.2 / s0.an2 cen
      then (cen, rawDistance ndim (data obs) (s0.centers cen) * s0.an2 cen)
      else acc)
    (ll, rawDistance ndim (data obs) (s0.centers ll) * s0.an2 ll)

/-- One observation of the optimal-transfer sweep, continued: the transfer
decision of HartiganWong.hpp lines 356-371. -/
noncomputable def optimalTransferStep (ndim nobs k : ℕ) (data : ℕ → ℕ → ℝ)
    (s : HWState) (obs : ℕ) : HWState :=
  if s.nc (s.ic1 obs) ≠ 1 then
    let s0 := if s.ncp (s.ic1 obs) ≠ 1 then
        { s with d := Function.update s.d obs
                  (rawDistance ndim (data obs) (s.centers (s.ic1 obs))
                    * s.an1 (s.ic1 obs)) }
      else s
    let found := otsCandidate ndim k obs data s0 (s.ic1 obs) (s0.ic2 obs)
    if found.2 ≥ s0.d obs then
      { s0 with ic2 := Function.update s0.ic2 obs found.1 }
    else
      transferPoint ndim data
        { s0 with
          indx := 0,
          live := fun c => if c = s.ic1 obs ∨ c = found.1 then (nobs : ℤ) + obs
            else s0.live c,
          ncp := fun c => if c = s.ic1 obs ∨ c = found.1 then (obs : ℤ) + 2
            else s0.ncp c }
        obs (s.ic1 obs) found.1
  else s

/-- The optimal-transfer sweep over the remaining observations
(HartiganWong.hpp lines 322-389): `++indx` before each body, early return
when `indx` reaches `num_obs`, and — only on acompleted sweep — clearing
`itran` and shifting every `live` entry down by `num_obs`. -/
noncomputable def optimalTransferGo (ndim nobs k : ℕ) (data : ℕ → ℕ → ℝ) :
    List ℕ → HWState → HWState
  | [], s => { s with
      itran := fun c => if c < k then false else s.itran c,
      live := fun c => if c < k then s.live c - nobs else s.live c }
  | obs :: rest, s =>
    let s1 := optimalTransferStep ndim nobs k data { s with indx := s.indx + 1 } obs
    if s1.indx = (nobs : ℤ) then s1
    else optimalTransferGo ndim nobs k data rest s1

/-- `HartiganWong::optimal_transfer` (lines 309-390): promote the
quick-transfer-updated clusters into the live set, then sweep. -/
noncomputable def optimalTransfer (ndim nobs k : ℕ) (data : ℕ → ℕ → ℝ)
    (s : HWState) : HWState :=
  optimalTransferGo ndim nobs k data (List.range nobs)
    { s with live := fun c => if c < k ∧ s.itran c then (nobs : ℤ) else s.live c }

/-- The body of one quick-transfer step (HartiganWong.hpp lines 407-446):
skip singleton source clusters, refresh the cached `d[obs]` when `l1` was
updated recently enough (`le_ncp`), and transfer to the second-best cluster
when the strict improvement test passes, marking `itran` and `ncp` for both
clusters.  The boolean reports whether a transfer occurred. -/
noncomputable def quickTransferStep (ndim nobs : ℕ) (data : ℕ → ℕ → ℝ)
    (istep : ℤ) (obs : ℕ) (s : HWState) : HWState × Bool :=
  if s.nc (s.ic1 obs) ≠ 1 then
    let s0 := if s.ncp (s.ic1 obs) ≥ istep + 2 then
        { s with d := Function.update s.d obs
                  (rawDistance ndim (data obs) (s.centers (s.ic1 obs))
                    * s.an1 (s.ic1 obs)) }
      else s
    if s0.ncp (s.ic1 obs) > istep + 2 ∨ s0.ncp (s0.ic2 obs) > istep + 2 then
      if rawDistance ndim (data obs) (s0.centers (s0.ic2 obs))
          < s0.d obs / s0.an2 (s0.ic2 obs) then
        (transferPoint ndim data
          { s0 with
            indx := 0,
            itran := fun c => if c = s.ic1 obs ∨ c = s0.ic2 obs then true
              else s0.itran c,
            ncp := fun c => if c = s.ic1 obs ∨ c = s0.ic2 obs
              then istep + (nobs : ℤ) + 2 else s0.ncp c }
          obs (s.ic1 obs) (s0.ic2 obs), true)
      else (s0, false)
    else (s0, false)
  else (s, false)

/-- `HartiganWong::quick_transfer` (lines 404-462) as a tail recursion over
the endless `while (1)` / `for (obs)` nest: `obs` wraps modulo `nobs`,
`icoun` counts steps since the last transfer (reset on a transfer, flagged
by the step's boolean), `istep` counts all steps and aborts (returning
`imaxqtr' = -1`, the source's in-place `imaxqtr = -1`) once it reaches the
budget.  Returns the final state and the (possibly negated)
remaining-budget marker. -/
noncomputable def quickTransfer (ndim nobs : ℕ) (data : ℕ → ℕ → ℝ) :
    ℕ → ℕ → ℤ → ℤ → HWState → HWState × ℤ
  | obs, icoun, istep, imaxqtr, s =>
    let res := quickTransferStep ndim nobs data istep obs s
    let icoun1 := if res.2 then 0 else icoun + 1
    if icoun1 = nobs then (res.1, imaxqtr)
    else if istep + 1 ≥ imaxqtr then (res.1, -1)
    else quickTransfer ndim nobs data (if obs + 1 = nobs then 0 else obs + 1)
      icoun1 (istep + 1) imaxqtr res.1
termination_by _ _ istep imaxqtr _ => (imaxqtr - istep).toNat
decreasing_by
  simp only [not_le] at *
  omega

/-- The first two candidates of the seeding scan of `HartiganWong::run`
(HartiganWong.hpp lines 163-176): centers 0 and 1 ordered by squared
distance, as a (best, second) pair of (index, distance) records. -/
noncomputable def hwSeedInit (ndim : ℕ) (data centers : ℕ → ℕ → ℝ)
    (obs : ℕ) : (ℕ × ℝ) × (ℕ × ℝ) :=
  if rawDistance ndim (data obs) (centers 0)
      > rawDistance ndim (data obs) (centers 1)
  then ((1, rawDistance ndim (data obs) (centers 1)),
        (0, rawDistance ndim (data obs) (centers 0)))
  else ((0, rawDistance ndim (data obs) (centers 0)),
        (1, rawDistance ndim (data obs) (centers 1)))

/-- The rest of the seeding scan (`for cen = 2; cen < num_centers`), folding
the strict best/second-best update over the remaining centers. -/
noncomputable def hwSeedPair (ndim k : ℕ) (data centers : ℕ → ℕ → ℝ)
    (obs : ℕ) : ℕ × ℕ :=
  let res := (List.range' 2 (k - 2)).foldl
    (fun (acc : (ℕ × ℝ) × (ℕ × ℝ)) cen =>
      if rawDistance ndim (data obs) (centers cen) < acc.2.2 then
        if rawDistance ndim (data obs) (centers cen) < acc.1.2 then
          ((cen, rawDistance ndim (data obs) (centers cen)), acc.1)
        else (acc.1, (cen, rawDistance ndim (data obs) (centers cen)))
      else acc) (hwSeedInit ndim data centers obs)
  (res.1.1, res.2.1)

/-- The best-cluster assignment after seeding: `ic1[obs]` for the `nobs`
real observations (the `clusters` buffer outside that range is untouched). -/
noncomputable def hwIc1 (ndim k nobs : ℕ) (data centers : ℕ → ℕ → ℝ)
    (clusters : ℕ → ℕ) : ℕ → ℕ :=
  fun o => if o < nobs then (hwSeedPair ndim k data centers o).1 else clusters o

/-- The second-best assignment after seeding (`ic2`). -/
noncomputable def hwIc2 (ndim k : ℕ) (data centers : ℕ → ℕ → ℝ) : ℕ → ℕ :=
  fun o => (hwSeedPair ndim k data centers o).2

/-- Cluster sizes tallied from an assignment (`++nc[ic1[obs]]`,
HartiganWong.hpp line 200). -/
def hwNc (nobs : ℕ) (ic1 : ℕ → ℕ) : ℕ → ℕ :=
  fun c => ((List.range nobs).filter (fun o => ic1 o = c)).length

/-- `an1[cen] = (num > 1 ? num / (num - 1) : big)` (line 214). -/
noncomputable def hwAn1 (nc : ℕ → ℕ) : ℕ → ℝ :=
  fun c => if (nc c : ℝ) > 1 then (nc c : ℝ) / ((nc c : ℝ) - 1) else hwBig

/-- `an2[cen] = num / (num + 1)` (line 213). -/
noncomputable def hwAn2 (nc : ℕ → ℕ) : ℕ → ℝ :=
  fun c => (nc c : ℝ) / ((nc c : ℝ) + 1)

/-- The main iteration loop of `HartiganWong::run` (lines 230-266), driven by
the remaining iteration count: one optimal-transfer pass, a break when
`indx == num_obs` (full sweep with no transfer), one quick-transfer pass, an
abort flagged as `ifault = 4` when its step budget is exhausted, the
`ncenters == 2` shortcut, and the `reset_ncp` refresh before the next
round.  Returns the iteration counter at exit, the fault code accumulated so
far (0 or 4), and the final state. -/
noncomputable def hwMainLoop (ndim nobs k : ℕ) (data : ℕ → ℕ → ℝ) :
    ℕ → ℕ → ℤ → HWState → ℕ × ℤ × HWState
  | 0, iter, _, s => (iter, 0, s)
  | rem + 1, iter, imaxqtr, s =>
    let s1 := optimalTransfer ndim nobs k data s
    if s1.indx = (nobs : ℤ) then (iter, 0, s1)
    else
      let qt := quickTransfer ndim nobs data 0 0 0 imaxqtr s1
      if qt.2 < 0 then (iter, 4, qt.1)
      else if k = 2 then (iter, 0, qt.1)
      else hwMainLoop ndim nobs k data rem (iter + 1) qt.2
        { qt.1 with ncp := fun _ => 1 }

/-- `HartiganWong::run` (HartiganWong.hpp lines 130-277): edge cases are
delegated to `process_edge_case`; otherwise the two-nearest seeding fills
`ic1`/`ic2`, sizes are tallied and centroids computed, an empty cluster
aborts with `Details(0, 1)`, the index-type budget check
`max / 50 < num_obs` throws (modelled as `.error`), and the main loop runs
with `imaxqtr = num_obs * 50`; exhausting `maxiter` sets `ifault = 2`; the
returned `Details` carries the final sizes, the per-cluster WCSS from the
recomputed centroids, the exit iteration count and the fault code.
`indexMax` stands for `std::numeric_limits<INDEX_t>::max()`.  Before the
edge-case check, lines 139-154 resize the member vectors `nc`, `an1`, `an2`,
`ncp`, `itran` and `live` to `num_centers`; with the default `int`
instantiation a negative `ncenters` converts to a huge `size_t`, so
`resize` throws `std::length_error` at entry — modelled by the leading
`ncenters < 0` error branch. -/
noncomputable def hwRun (maxiter : ℕ) (indexMax : ℤ) (ndim nobs : ℕ)
    (data : ℕ → ℕ → ℝ) (ncenters : ℤ) (centers : ℕ → ℕ → ℝ)
    (clusters : ℕ → ℕ) :
    Except String (Details ℝ × (ℕ → ℕ → ℝ) × (ℕ → ℕ)) :=
  if ncenters < 0 then .error "length_error"
  else if isEdgeCase nobs ncenters then
    .ok (processEdgeCase ndim nobs data ncenters centers clusters)
  else
    let k := ncenters.toNat
    let ic1 := hwIc1 ndim k nobs data centers clusters
    let ic2 := hwIc2 ndim k data centers
    let nc := hwNc nobs ic1
    let sizes0 := (List.range k).map nc
    let centers0 := computeCentroids ndim nobs data k centers ic1 sizes0
    if ∃ c, c < k ∧ nc c = 0 then
      .ok (⟨[], [], 0, 1⟩, centers0, ic1)
    else if indexMax / 50 < (nobs : ℤ) then
      .error "too many observations for the index integer type"
    else
      let s0 : HWState :=
        ⟨centers0, ic1, ic2, nc, hwAn1 nc, hwAn2 nc,
          fun _ => 0, fun _ => 0, fun _ => true, fun _ => 0, 0⟩
      let res := hwMainLoop ndim nobs k data maxiter 1 ((nobs : ℤ) * 50) s0
      let ifault := if res.1 = maxiter + 1 then 2 else res.2.1
      let sF := res.2.2
      let sizesF := (List.range k).map sF.nc
      let centersF := computeCentroids ndim nobs data k sF.centers sF.ic1 sizesF
      let wcss := computeWcss ndim nobs data k centersF sF.ic1
      .ok (⟨sizesF, wcss, (res.1 : ℤ), ifault⟩, centersF, sF.ic1)

/-- Example data for the overflow-check analysis: three 1-d observations
`0, 1, 2`, all closest to the first of the two example centers. -/
noncomputable def hwCeData : ℕ → ℕ → ℝ := fun o _ => (o : ℝ)

/-- Example data hitting both example centers: observations `0, 1, 10`. -/
noncomputable def hwOvData : ℕ → ℕ → ℝ := fun o _ => if o = 2 then 10 else (o : ℝ)

/-- Two example centers at `0` and `10` in one dimension. -/
noncomputable def hwExCenters : ℕ → ℕ → ℝ := fun c _ => if c = 0 then 0 else 10

/-- The structural invariant of the HartiganWong transfer stages: the
cluster sizes over the `k` clusters sum to `nobs`, every cluster is
non-empty, and each observation's best and second-best clusters are
in-range and distinct. -/
def HWInv (nobs k : ℕ) (s : HWState) : Prop :=
  (∑ c ∈ Finset.range k, s.nc c) = nobs
  ∧ (∀ c, c < k → 1 ≤ s.nc c)
  ∧ (∀ o, o < nobs → s.ic1 o < k ∧ s.ic2 o < k ∧ s.ic1 o ≠ s.ic2 o)

/-- A concrete 3-observation, 2-cluster witness state: observation 0 in
cluster 0, observations 1 and 2 in cluster 1. -/
noncomputable def hwWData : ℕ → ℕ → ℝ := fun _ _ => 0

noncomputable def hwWState : HWState :=
  ⟨fun _ _ => 0,
    fun o => if o = 0 then 0 else 1,
    fun o => if o = 0 then 1 else 0,
    fun c => if c = 0 then 1 else if c = 1 then 2 else 0,
    fun _ => 0, fun _ => 0, fun _ => 0, fun _ => 0,
    fun _ => false, fun _ => 0, 0⟩

/-- `kmeans::weighted_sample` (random.hpp lines 32-51), with the
`std::mt19937_64` draws abstracted as the uniform stream `us` and the
rejection `do/while` driven by fuel.  `std::lower_bound` on the
nondecreasing cumulative vector is the first index whose entry is not less
than the sampled weight; an index equal to `nobs` (the end) or naming an
already-zeroed weight is rejected and the engine advances. -/
noncomputable def weightedSample (cumulative : List ℝ) (mindist : ℕ → ℝ)
    (nobs : ℕ) (us : ℕ → ℝ) : ℕ → ℕ → Option (ℕ × ℕ)
  | 0, _ => none
  | fuel + 1, pos =>
    let w := cumulative.getLast?.getD 0 * us pos
    let cid := cumulative.findIdx (fun x => decide (¬ x < w))
    if cid = nobs ∨ mindist cid = 0 then
      weightedSample cumulative mindist nobs us fuel (pos + 1)
    else some (cid, pos + 1)

/-- The `mindist` refresh of `InitializeKmeansPP::run` (lines 73-90): for
every observation with non-zero weight, the squared distance to the last
chosen point replaces the weight if it is smaller — or unconditionally on
the `cen == 1` pass, which overwrites the all-ones sentinel. -/
noncomputable def kppMindistUpdate (ndim nobs : ℕ) (data : ℕ → ℕ → ℝ)
    (last cen : ℕ) (mindist : ℕ → ℝ) : ℕ → ℝ :=
  fun obs =>
    if obs < nobs ∧ mindist obs ≠ 0 then
      if cen = 1 ∨ rawDistance ndim (data obs) (data last) < mindist obs
      then rawDistance ndim (data obs) (data last)
      else mindist obs
    else mindist obs

/-- The refresh step dispatched on whether any center was chosen yet
(`!sofar.empty()`, line 74). -/
noncomputable def kppUpdatedMindist (ndim nobs : ℕ) (data : ℕ → ℕ → ℝ)
    (cen : ℕ) (sofar : List ℕ) (mindist : ℕ → ℝ) : ℕ → ℝ :=
  match sofar.getLast? with
  | some last => kppMindistUpdate ndim nobs data last cen mindist
  | none => mindist

/-- The running cumulative sums `cumulative[i] = mindist[0] + ... +
mindist[i]` (lines 95-98). -/
noncomputable def kppCumulative (nobs : ℕ) (mindist : ℕ → ℝ) : List ℝ :=
  (List.range nobs).map (fun i => ∑ j ∈ Finset.range (i + 1), mindist j)

/-- The selection loop of `InitializeKmeansPP::run` (lines 71-110): refresh
the weights, stop returning the centers chosen so far once the total
remaining weight is exactly zero, otherwise draw one index by weighted
sampling, zero its weight and append it. -/
noncomputable def kppLoop (ndim nobs : ℕ) (data : ℕ → ℕ → ℝ) (us : ℕ → ℝ)
    (fuel : ℕ) : ℕ → ℕ → (ℕ → ℝ) → List ℕ → ℕ → Option (List ℕ)
  | 0, _, _, sofar, _ => some sofar
  | rem + 1, cen, mindist, sofar, pos =>
    let mindist' := kppUpdatedMindist ndim nobs data cen sofar mindist
    if (kppCumulative nobs mindist').getLast?.getD 0 = 0 then some sofar
    else
      match weightedSample (kppCumulative nobs mindist') mindist' nobs us fuel pos with
      | none => none
      | some (cid, pos') =>
        kppLoop ndim nobs data us fuel rem (cen + 1)
          (Function.update mindist' cid 0) (sofar ++ [cid]) pos'

/-- The index-selection entry of `InitializeKmeansPP::run` (lines 65-112):
weights start at the all-ones sentinel and the loop runs over the
`ncenters` requested centers. -/
noncomputable def kppSelect (ndim nobs : ℕ) (data : ℕ → ℕ → ℝ)
    (ncenters : ℤ) (us : ℕ → ℝ) (fuel : ℕ) : Option (List ℕ) :=
  kppLoop ndim nobs data us fuel ncenters.toNat 0 (fun _ => 1) [] 0

/-- `kmeans::copy_into_array` (InitializeRandom.hpp lines 22-30): copy the
chosen observations' coordinates into the leading columns of `centers`. -/
def copyIntoArray {α : Type} [LinearOrderedField α] (ndim : ℕ)
    (chosen : List ℕ) (data centers : ℕ → ℕ → α) : ℕ → ℕ → α :=
  fun c d =>
    if c < chosen.length ∧ d < ndim then data (chosen.getD c 0) d
    else centers c d

/-- `InitializeNone::run` (InitializeNone.hpp line 38): no work, returning
`std::min(nobs, ncenters)` over the signed index type. -/
def noInitRun (nobs : ℕ) (ncenters : ℤ) : ℤ :=
  min (nobs : ℤ) ncenters

/-- `InitializeRandom::run` (InitializeRandom.hpp lines 81-86): sample
`ncenters` observations without replacement and copy them into the output
buffer, returning how many were drawn. -/
noncomputable def randomInitRun (ndim nobs : ℕ) (data : ℕ → ℕ → ℝ)
    (ncenters : ℤ) (centers : ℕ → ℕ → ℝ) (us : ℕ → ℝ) :
    Option (ℕ × (ℕ → ℕ → ℝ)) :=
  match sampleWithoutReplacement nobs ncenters us 0 with
  | none => none
  | some (chosen, _) =>
    some (chosen.length, copyIntoArray ndim chosen data centers)

/-- `InitializeKmeansPP::run` (InitializeKmeansPP.hpp lines 132-139): an
explicit `if (!nobs) return 0` guard, then k-means++ selection followed by
`copy_into_array`. -/
noncomputable def kppRun (ndim nobs : ℕ) (data : ℕ → ℕ → ℝ) (ncenters : ℤ)
    (centers : ℕ → ℕ → ℝ) (us : ℕ → ℝ) (fuel : ℕ) :
    Option (ℕ × (ℕ → ℕ → ℝ)) :=
  if nobs = 0 then some (0, centers)
  else
    match kppSelect ndim nobs data ncenters us fuel with
    | none => none
    | some sofar => some (sofar.length, copyIntoArray ndim sofar data centers)

/-- `InitializePCAPartition::run` (InitializePCAPartition.hpp lines
225-228): the `if (nobs == 0) return 0` guard.  The PCA-partition
iterations past the guard (power-method PC1 extraction and hyperplane
splits) are irrelevant to the guard's behaviour and are abstracted by the
`body` parameter, universally quantified in the theorems that use this
definition. -/
def pcaPartitionRun (nobs : ℕ) (centers : ℕ → ℕ → ℝ) (clusters : ℕ → ℕ)
    (body : ℤ × (ℕ → ℕ → ℝ) × (ℕ → ℕ)) : ℤ × (ℕ → ℕ → ℝ) × (ℕ → ℕ) :=
  if nobs = 0 then (0, centers, clusters) else body

/-- A genuinely converged 1-d example for the strict mini-batch regime:
four observations `0, 13, 10, 21` with alternating clusters, so cluster 0
holds `{0, 10}` with mean 5 and cluster 1 holds `{13, 21}` with mean 17;
every observation is strictly nearest its own centroid.  With the all-zero
uniform stream every sampled batch is `[0, 1]`. -/
noncomputable def mbExData : ℕ → ℕ → ℝ :=
  fun o _ => if o = 0 then 0 else if o = 1 then 13 else if o = 2 then 10
    else 21

noncomputable def mbExCenters : ℕ → ℕ → ℝ := fun c _ => if c = 0 then 5 else 17

def mbExClusters : ℕ → ℕ := fun o => o % 2

/-- The centers after the first batch update of the example: the running
mean starts from `total_sampled = 0`, so the first sample resets each
sampled cluster's centroid to the batch point itself (`n = 1`). -/
noncomputable def mbExCen1 : ℕ → ℕ → ℝ :=
  fun c d => if c = 0 ∧ d = 0 then 0 else if c = 1 ∧ d = 0 then 13
    else mbExCenters c d

def mbExPrev2 : ℕ → ℕ := fun o => if o = 1 then 1 else 0

def mbExTs (n : ℕ) : ℕ → ℕ := fun c => if c ≤ 1 then n else 0

/-- The final-pass assignment of the example at the drifted centers
`(0, 13)`: observation 2 (value 10) flips to cluster 1; slots past the four
real observations keep their old values. -/
def mbExClustersF : ℕ → ℕ := fun o => if o = 0 ∨ 4 ≤ o then mbExClusters o else 1

section EdgeCaseClaims

variable {α : Type} [LinearOrderedField α]

/-- In the `ncenters == 1` branch every observation slot below `nobs` is 0. -/
theorem processEdgeCase_one_clusters (ndim nobs : ℕ) (data : ℕ → ℕ → α)
    (centers : ℕ → ℕ → α) (clusters : ℕ → ℕ) {i : ℕ} (hi : i < nobs) :
    (processEdgeCase ndim nobs data 1 centers clusters).2.2 i = 0 := by
  simp [processEdgeCase, hi]

/-- In the `ncenters == 1` branch the report has status 0. -/
theorem processEdgeCase_one_status (ndim nobs : ℕ) (data : ℕ → ℕ → α)
    (centers : ℕ → ℕ → α) (clusters : ℕ → ℕ) :
    (processEdgeCase ndim nobs data 1 centers clusters).1.status = 0 := by
  simp [processEdgeCase]

/-- In the `ncenters == 1` branch, for a non-empty dataset, the single
centroid is the arithmetic mean of the whole dataset. -/
theorem processEdgeCase_one_center (ndim nobs : ℕ) (data : ℕ → ℕ → α)
    (centers : ℕ → ℕ → α) (clusters : ℕ → ℕ) (h1 : 1 ≤ nobs)
    {d : ℕ} (hd : d < ndim) :
    (processEdgeCase ndim nobs data 1 centers clusters).2.1 0 d
      = (∑ obs ∈ Finset.range nobs, data obs d) / (nobs : α) := by
  have hnz : nobs ≠ 0 := by omega
  have hfilter :
      (Finset.range nobs).filter
        (fun o => nobs ≤ o → clusters o = 0) = Finset.range nobs := by
    apply Finset.filter_true_of_mem
    intro o ho hle
    exact absurd hle (Nat.not_le.mpr (Finset.mem_range.mp ho))
  simp [processEdgeCase, computeCentroids, hd, hfilter, hnz]

/-- In the `ncenters >= nobs` branch (with `ncenters != 1`) `std::iota` puts
each observation in its own cluster. -/
theorem processEdgeCase_iota_clusters (ndim nobs : ℕ) (data : ℕ → ℕ → α)
    (ncenters : ℤ) (centers : ℕ → ℕ → α) (clusters : ℕ → ℕ)
    (hc1 : ncenters ≠ 1) (hge : (nobs : ℤ) ≤ ncenters) {i : ℕ} (hi : i < nobs) :
    (processEdgeCase ndim nobs data ncenters centers clusters).2.2 i = i := by
  simp [processEdgeCase, hc1, hge, hi]

/-- In the `ncenters >= nobs` branch (with `ncenters != 1`) the status is 3
exactly when strictly more centers than observations were requested. -/
theorem processEdgeCase_iota_status (ndim nobs : ℕ) (data : ℕ → ℕ → α)
    (ncenters : ℤ) (centers : ℕ → ℕ → α) (clusters : ℕ → ℕ)
    (hc1 : ncenters ≠ 1) (hge : (nobs : ℤ) ≤ ncenters) :
    (processEdgeCase ndim nobs data ncenters centers clusters).1.status
      = if (nobs : ℤ) < ncenters then 3 else 0 := by
  simp [processEdgeCase, hc1, hge]

/-- C2: for `1 <= nobs <= ncenters` the edge-case shortcut assigns observation
`i` to cluster `i` and reports status 3 iff `ncenters > nobs` (0 when equal);
and for `ncenters == 1` on a non-empty dataset every observation goes to
cluster 0, the single centroid is the arithmetic mean of the dataset, and the
status is 0. -/
theorem edge_case_shortcut_spec (ndim nobs : ℕ) (data : ℕ → ℕ → α)
    (ncenters : ℤ) (centers : ℕ → ℕ → α) (clusters : ℕ → ℕ) :
    (1 ≤ nobs → (nobs : ℤ) ≤ ncenters →
      (∀ i, i < nobs →
        (processEdgeCase ndim nobs data ncenters centers clusters).2.2 i = i) ∧
      (processEdgeCase ndim nobs data ncenters centers clusters).1.status
        = (if (nobs : ℤ) < ncenters then 3 else 0))
    ∧ (ncenters = 1 → 1 ≤ nobs →
      (∀ i, i < nobs →
        (processEdgeCase ndim nobs data ncenters centers clusters).2.2 i = 0) ∧
      (processEdgeCase ndim nobs data ncenters centers clusters).1.status = 0 ∧
      (∀ d, d < ndim →
        (processEdgeCase ndim nobs data ncenters centers clusters).2.1 0 d
          = (∑ obs ∈ Finset.range nobs, data obs d) / (nobs : α))) := by
  constructor
  · intro h1 h2
    by_cases hc : ncenters = 1
    · subst hc
      have hn1 : nobs = 1 := by omega
      subst hn1
      refine ⟨fun i hi => ?_, ?_⟩
      · interval_cases i
        exact processEdgeCase_one_clusters ndim 1 data centers clusters Nat.one_pos
      · rw [processEdgeCase_one_status ndim 1 data centers clusters]
        norm_num
    · exact ⟨fun i hi => processEdgeCase_iota_clusters ndim nobs data ncenters
          centers clusters hc h2 hi,
        processEdgeCase_iota_status ndim nobs data ncenters centers clusters hc h2⟩
  · intro hc h1
    subst hc
    exact ⟨fun i hi => processEdgeCase_one_clusters ndim nobs data centers clusters hi,
      processEdgeCase_one_status ndim nobs data centers clusters,
      fun d hd => processEdgeCase_one_center ndim nobs data centers clusters h1 hd⟩

end EdgeCaseClaims

/-- Witness for `edge_case_shortcut_spec` at `nobs = 2` with `ncenters = 3`
(singleton branch) and `ncenters = 1` (mean branch). -/
theorem edge_case_shortcut_spec_witness :
    ((∀ i, i < 2 → (processEdgeCase 1 2 exData 3 exCenters0 exClusters0).2.2 i = i) ∧
      (processEdgeCase 1 2 exData 3 exCenters0 exClusters0).1.status
        = (if (2 : ℤ) < 3 then 3 else 0)) ∧
    ((∀ i, i < 2 → (processEdgeCase 1 2 exData 1 exCenters0 exClusters0).2.2 i = 0) ∧
      (processEdgeCase 1 2 exData 1 exCenters0 exClusters0).1.status = 0 ∧
      (∀ d, d < 1 → (processEdgeCase 1 2 exData 1 exCenters0 exClusters0).2.1 0 d
        = (∑ obs ∈ Finset.range 2, exData obs d) / (2 : ℚ))) :=
  ⟨(edge_case_shortcut_spec 1 2 exData 3 exCenters0 exClusters0).1
      (by norm_num) (by norm_num),
   (edge_case_shortcut_spec 1 2 exData 1 exCenters0 exClusters0).2
      rfl (by norm_num)⟩

/-- The compared distance is the metric of `EuclideanSpace ℝ (Fin ndim)`. -/
theorem qsDist_eq_dist (ndim : ℕ) (x y : ℕ → ℝ) :
    qsDist ndim x y
      = dist (EuclideanSpace.equiv (Fin ndim) ℝ |>.symm (fun d => x d))
          (EuclideanSpace.equiv (Fin ndim) ℝ |>.symm (fun d => y d)) := by
  rw [EuclideanSpace.dist_eq]
  unfold qsDist rawDistance
  congr 1
  rw [Finset.sum_range]
  apply Finset.sum_congr rfl
  intro i _
  rw [Real.dist_eq, sq_abs]
  rfl

theorem qsDist_symm (ndim : ℕ) (x y : ℕ → ℝ) : qsDist ndim x y = qsDist ndim y x := by
  rw [qsDist_eq_dist, qsDist_eq_dist, dist_comm]

theorem qsDist_nonneg (ndim : ℕ) (x y : ℕ → ℝ) : 0 ≤ qsDist ndim x y :=
  Real.sqrt_nonneg _

theorem qsDist_triangle (ndim : ℕ) (x y z : ℕ → ℝ) :
    qsDist ndim x z ≤ qsDist ndim x y + qsDist ndim y z := by
  rw [qsDist_eq_dist, qsDist_eq_dist, qsDist_eq_dist]
  exact dist_triangle _ _ _

theorem SearchOut.comp {ndim : ℕ} {reference : ℕ → ℕ → ℝ} {target : ℕ → ℝ}
    {M₁ M₂ : List ℕ} {s s₁ s₂ : ℕ × ℝ}
    (h₁ : SearchOut ndim reference target M₁ s s₁)
    (h₂ : SearchOut ndim reference target M₂ s₁ s₂) :
    SearchOut ndim reference target (M₁ ++ M₂) s s₂ := by
  obtain ⟨le₁, ruled₁, rec₁⟩ := h₁
  obtain ⟨le₂, ruled₂, rec₂⟩ := h₂
  refine ⟨le_trans le₂ le₁, ?_, ?_⟩
  · intro j hj
    rcases List.mem_append.mp hj with hj | hj
    · exact le_trans le₂ (ruled₁ j hj)
    · exact ruled₂ j hj
  · rcases rec₂ with h | h
    · rw [h]
      rcases rec₁ with h' | h'
      · exact Or.inl h'
      · exact Or.inr ⟨List.mem_append.mpr (Or.inl h'.1), h'.2⟩
    · exact Or.inr ⟨List.mem_append.mpr (Or.inr h.1), h.2⟩

theorem SearchOut.pruned {ndim : ℕ} {reference : ℕ → ℕ → ℝ} {target : ℕ → ℝ}
    {M : List ℕ} {s : ℕ × ℝ}
    (h : ∀ j ∈ M, s.2 ≤ qsDist ndim (reference j) target) :
    SearchOut ndim reference target M s s :=
  ⟨le_refl _, h, Or.inl rfl⟩

theorem SearchOut.mono {ndim : ℕ} {reference : ℕ → ℕ → ℝ} {target : ℕ → ℝ}
    {M M' : List ℕ} {s s' : ℕ × ℝ}
    (h : SearchOut ndim reference target M s s')
    (hsub : ∀ j, j ∈ M' ↔ j ∈ M) :
    SearchOut ndim reference target M' s s' := by
  obtain ⟨le₁, ruled, rec⟩ := h
  refine ⟨le₁, fun j hj => ruled j ((hsub j).mp hj), ?_⟩
  rcases rec with h | h
  · exact Or.inl h
  · exact Or.inr ⟨(hsub _).mpr h.1, h.2⟩

theorem VPTree.isLeaf_iff {T : VPTree} : T.isLeaf = true ↔ T = .leaf := by
  cases T <;> simp [VPTree.isLeaf]

/-- The branch-and-bound search examines a superset of what pruning allows:
over any well-formed subtree, the radius never grows, every member of the
subtree is ruled out at the final radius (pruned subtrees by the triangle
inequality, visited ones by recursion), and the final state is either the
incoming one or a member paired with its exact distance. -/
theorem searchNN_searchOut (ndim : ℕ) (reference : ℕ → ℕ → ℝ) (target : ℕ → ℝ) :
    ∀ (T : VPTree), VPWF ndim reference T → ∀ s : ℕ × ℝ,
      SearchOut ndim reference target T.members s
        (searchNN ndim reference target T s) := by
  intro T
  induction T with
  | leaf =>
    intro _ s
    exact SearchOut.pruned (by simp [VPTree.members])
  | node t idx l r ihl ihr =>
    intro hwf s
    cases hwf with
    | node _ _ _ _ hl hr wl wr =>
      have step1 : ∀ dist : ℝ, dist = qsDist ndim (reference idx) target →
          SearchOut ndim reference target [idx] s
            (if dist < s.2 then (idx, dist) else s) := by
        intro dist hdq
        by_cases hlt : dist < s.2
        · rw [if_pos hlt]
          refine ⟨le_of_lt hlt, ?_, Or.inr ⟨List.mem_singleton_self idx, hdq⟩⟩
          intro j hj
          rw [List.mem_singleton] at hj
          subst hj
          exact le_of_eq hdq
        · rw [if_neg hlt]
          refine ⟨le_refl _, ?_, Or.inl rfl⟩
          intro j hj
          rw [List.mem_singleton] at hj
          subst hj
          rw [← hdq]
          exact le_of_not_lt hlt
      by_cases hleaf : (l.isLeaf && r.isLeaf) = true
      · obtain ⟨hleft, hright⟩ := Bool.and_eq_true_iff.mp hleaf
        rw [VPTree.isLeaf_iff.mp hleft, VPTree.isLeaf_iff.mp hright] at *
        show SearchOut ndim reference target _ s
          (if Real.sqrt (rawDistance ndim (reference idx) target) < s.2
            then (idx, Real.sqrt (rawDistance ndim (reference idx) target)) else s)
        exact SearchOut.mono (step1 _ rfl) (by intro j; simp [VPTree.members])
      · have hleaf' : (l.isLeaf && r.isLeaf) = false := by
          rwa [Bool.not_eq_true] at hleaf
        rw [searchNN]
        simp only [hleaf', Bool.false_eq_true, if_false]
        set dist := Real.sqrt (rawDistance ndim (reference idx) target) with hdist
        have hdq : dist = qsDist ndim (reference idx) target := hdist
        set ct1 := if dist < s.2 then (idx, dist) else s with hct1
        have s1 : SearchOut ndim reference target [idx] s ct1 := step1 dist hdq
        by_cases hdt : dist < t
        · rw [if_pos hdt]
          set ct2 := if dist - ct1.2 ≤ t then searchNN ndim reference target l ct1 else ct1
            with hct2
          set ct3 := if t ≤ dist + ct2.2 then searchNN ndim reference target r ct2 else ct2
            with hct3
          have s2 : SearchOut ndim reference target l.members ct1 ct2 := by
            rw [hct2]
            by_cases hc : dist - ct1.2 ≤ t
            · simpa [hc] using ihl wl ct1
            · have hp : ∀ j ∈ l.members, ct1.2 ≤ qsDist ndim (reference j) target := by
                intro j hj
                have h1 : qsDist ndim (reference idx) (reference j) ≤ t := hl j hj
                have h2 : qsDist ndim (reference idx) target
                    ≤ qsDist ndim (reference idx) (reference j)
                      + qsDist ndim (reference j) target := qsDist_triangle ndim _ _ _
                rw [← hdq] at h2
                push_neg at hc
                linarith
              simpa [hc] using SearchOut.pruned hp
          have s3 : SearchOut ndim reference target r.members ct2 ct3 := by
            rw [hct3]
            by_cases hc : t ≤ dist + ct2.2
            · simpa [hc] using ihr wr ct2
            · have hp : ∀ j ∈ r.members, ct2.2 ≤ qsDist ndim (reference j) target := by
                intro j hj
                have h1 : t ≤ qsDist ndim (reference idx) (reference j) := hr j hj
                have h2 : qsDist ndim (reference idx) (reference j)
                    ≤ qsDist ndim (reference idx) target
                      + qsDist ndim target (reference j) := qsDist_triangle ndim _ _ _
                rw [← hdq, qsDist_symm ndim target (reference j)] at h2
                push_neg at hc
                linarith
              simpa [hc] using SearchOut.pruned hp
          exact SearchOut.mono (s1.comp (s2.comp s3))
            (by intro j; simp [VPTree.members])
        · rw [if_neg hdt]
          set ct2 := if t ≤ dist + ct1.2 then searchNN ndim reference target r ct1 else ct1
            with hct2
          set ct3 := if dist - ct2.2 ≤ t then searchNN ndim reference target l ct2 else ct2
            with hct3
          have s2 : SearchOut ndim reference target r.members ct1 ct2 := by
            rw [hct2]
            by_cases hc : t ≤ dist + ct1.2
            · simpa [hc] using ihr wr ct1
            · have hp : ∀ j ∈ r.members, ct1.2 ≤ qsDist ndim (reference j) target := by
                intro j hj
                have h1 : t ≤ qsDist ndim (reference idx) (reference j) := hr j hj
                have h2 : qsDist ndim (reference idx) (reference j)
                    ≤ qsDist ndim (reference idx) target
                      + qsDist ndim target (reference j) := qsDist_triangle ndim _ _ _
                rw [← hdq, qsDist_symm ndim target (reference j)] at h2
                push_neg at hc
                linarith
              simpa [hc] using SearchOut.pruned hp
          have s3 : SearchOut ndim reference target l.members ct2 ct3 := by
            rw [hct3]
            by_cases hc : dist - ct2.2 ≤ t
            · simpa [hc] using ihl wl ct2
            · have hp : ∀ j ∈ l.members, ct2.2 ≤ qsDist ndim (reference j) target := by
                intro j hj
                have h1 : qsDist ndim (reference idx) (reference j) ≤ t := hl j hj
                have h2 : qsDist ndim (reference idx) target
                    ≤ qsDist ndim (reference idx) (reference j)
                      + qsDist ndim (reference j) target := qsDist_triangle ndim _ _ _
                rw [← hdq] at h2
                push_neg at hc
                linarith
              simpa [hc] using SearchOut.pruned hp
          exact SearchOut.mono (s1.comp (s2.comp s3))
            (by intro j; simp [VPTree.members]; tauto)

/-- Swapping a fresh value into position `j` of a list is a permutation trade
with consing it at the front. -/
theorem set_swap_perm {β : Type} (b₀ : β) :
    ∀ (xs : List β) (j : ℕ) (b : β), j < xs.length →
      List.Perm (xs.getD j b₀ :: xs.set j b) (b :: xs) := by
  intro xs
  induction xs with
  | nil => intro j b h; simp at h
  | cons y ys ih =>
    intro j b h
    cases j with
    | zero => simpa using List.Perm.swap b y ys
    | succ k =>
      have hk : k < ys.length := by simpa using h
      have h0 : ((y :: ys).getD (k + 1) b₀ :: (y :: ys).set (k + 1) b)
          = ys.getD k b₀ :: y :: ys.set k b := by simp
      have h1 : List.Perm (ys.getD k b₀ :: y :: ys.set k b)
          (y :: ys.getD k b₀ :: ys.set k b) := List.Perm.swap _ _ _
      have h2 : List.Perm (y :: ys.getD k b₀ :: ys.set k b) (y :: b :: ys) :=
        (ih k b hk).cons y
      have h3 : List.Perm (y :: b :: ys) (b :: y :: ys) := List.Perm.swap _ _ _
      rw [h0]
      exact (h1.trans h2).trans h3

/-- The source's pivot swap: pulling `items[i]` to the front while dropping
the old head into slot `i` permutes the slice. -/
theorem vantage_rest_perm {β : Type} (x : β) (xs : List β) (i : ℕ)
    (hi : i < (x :: xs).length) :
    List.Perm ((x :: xs).getD i x :: ((x :: xs).set i x).tail) (x :: xs) := by
  cases i with
  | zero => simp
  | succ j =>
    have hj : j < xs.length := by simpa using hi
    simpa using set_swap_perm x xs j x hj

/-- The vantage points of the built tree are exactly the indices of the
items handed to `buildFromPoints` (up to order). -/
theorem buildFromPoints_members {σ : Type} (ndim : ℕ) (rng : σ → ℕ × σ) :
    ∀ (n : ℕ) (items : List (ℕ × (ℕ → ℝ))), items.length ≤ n → ∀ (g : σ),
      List.Perm ((buildFromPoints ndim rng items g).1).members
        (items.map Prod.fst) := by
  intro n
  induction n with
  | zero =>
    intro items h g
    rw [List.length_eq_zero.mp (Nat.le_zero.mp h)]
    simp [buildFromPoints, VPTree.members]
  | succ n ih =>
    intro items h g
    match items with
    | [] => simp [buildFromPoints, VPTree.members]
    | [x] => simp [buildFromPoints, VPTree.members]
    | x :: y :: ys =>
      have hgap : 0 < (x :: y :: ys).length := by simp
      rw [buildFromPoints]
      simp only [VPTree.members]
      set i := (rng g).1 % (x :: y :: ys).length with hi
      have hilt : i < (x :: y :: ys).length := Nat.mod_lt _ hgap
      set vantage := (x :: y :: ys).getD i x with hv
      set rest := ((x :: y :: ys).set i x).tail with hrest
      set sorted := rest.mergeSort (fun a b =>
        decide (rawDistance ndim vantage.2 a.2 ≤ rawDistance ndim vantage.2 b.2))
        with hsorted
      set m := (x :: y :: ys).length / 2 - 1 with hm
      have hrl : rest.length = ys.length + 1 := by
        rw [hrest]
        simp [List.length_set]
      have hsl : sorted.length = ys.length + 1 := by
        rw [hsorted, List.length_mergeSort, hrl]
      have hlen : (x :: y :: ys).length ≤ n + 1 := h
      have ihl := ih (sorted.take m)
        (by rw [List.length_take]; simp at hlen ⊢; omega) (rng g).2
      have ihr := ih (sorted.drop m)
        (by rw [List.length_drop]; simp at hlen ⊢; omega)
        (buildFromPoints ndim rng (sorted.take m) (rng g).2).2
      have hperm1 : List.Perm
          ((buildFromPoints ndim rng (sorted.take m) (rng g).2).1.members
            ++ (buildFromPoints ndim rng (sorted.drop m)
              (buildFromPoints ndim rng (sorted.take m) (rng g).2).2).1.members)
          (sorted.map Prod.fst) := by
        have := ihl.append ihr
        rwa [← List.map_append, List.take_append_drop] at this
      have hperm2 : List.Perm (sorted.map Prod.fst) (rest.map Prod.fst) :=
        (List.mergeSort_perm rest _).map Prod.fst
      have hperm3 : List.Perm ((vantage :: rest).map Prod.fst)
          ((x :: y :: ys).map Prod.fst) :=
        (vantage_rest_perm x (y :: ys) i hilt).map Prod.fst
      refine ((hperm1.trans hperm2).cons vantage.1).trans ?_
      simpa using hperm3

/-- The built tree is well-formed: the sort-based `nth_element` partition puts
closer-than-median items in the left subtree and farther-than-median items in
the right subtree, measured from the vantage point. -/
theorem buildFromPoints_wf {σ : Type} (ndim : ℕ) (rng : σ → ℕ × σ)
    (reference : ℕ → ℕ → ℝ) :
    ∀ (n : ℕ) (items : List (ℕ × (ℕ → ℝ))), items.length ≤ n →
      (∀ p ∈ items, reference p.1 = p.2) → ∀ (g : σ),
      VPWF ndim reference ((buildFromPoints ndim rng items g).1) := by
  intro n
  induction n with
  | zero =>
    intro items h hmem g
    rw [List.length_eq_zero.mp (Nat.le_zero.mp h), buildFromPoints]
    exact VPWF.leaf
  | succ n ih =>
    intro items h hmem g
    match items with
    | [] =>
      rw [buildFromPoints]
      exact VPWF.leaf
    | [x] =>
      rw [buildFromPoints]
      exact VPWF.node _ _ _ _ (by simp [VPTree.members]) (by simp [VPTree.members])
        VPWF.leaf VPWF.leaf
    | x :: y :: ys =>
      have hgap : 0 < (x :: y :: ys).length := by simp
      rw [buildFromPoints]
      set i := (rng g).1 % (x :: y :: ys).length with hi
      have hilt : i < (x :: y :: ys).length := Nat.mod_lt _ hgap
      set vantage := (x :: y :: ys).getD i x with hv
      set rest := ((x :: y :: ys).set i x).tail with hrest
      set sorted := rest.mergeSort (fun a b =>
        decide (rawDistance ndim vantage.2 a.2 ≤ rawDistance ndim vantage.2 b.2))
        with hsorted
      set m := (x :: y :: ys).length / 2 - 1 with hm
      have hrl : rest.length = ys.length + 1 := by
        rw [hrest]
        simp [List.length_set]
      have hsl : sorted.length = ys.length + 1 := by
        rw [hsorted, List.length_mergeSort, hrl]
      have hml : m < sorted.length := by
        rw [hsl, hm]
        simp
        omega
      have hvmem : vantage ∈ x :: y :: ys := by
        rw [hv, List.getD_eq_getElem _ _ hilt]
        exact List.getElem_mem hilt
      have hsub : ∀ p ∈ sorted, p ∈ x :: y :: ys := by
        intro p hp
        rw [hsorted] at hp
        have hp2 : p ∈ rest := (List.mergeSort_perm rest _).mem_iff.mp hp
        rw [hrest] at hp2
        have hp3 := List.mem_of_mem_tail hp2
        rcases List.mem_or_eq_of_mem_set hp3 with h' | h'
        · exact h'
        · rw [h']
          exact List.mem_cons_self x _
      have hpw : sorted.Pairwise (fun a b =>
          rawDistance ndim vantage.2 a.2 ≤ rawDistance ndim vantage.2 b.2) := by
        have hs := @List.sorted_mergeSort (ℕ × (ℕ → ℝ))
          (fun a b =>
            decide (rawDistance ndim vantage.2 a.2 ≤ rawDistance ndim vantage.2 b.2))
          (by intro a b c hab hbc; simp at hab hbc ⊢; exact le_trans hab hbc)
          (by intro a b; simp; exact le_total _ _) rest
        rw [← hsorted] at hs
        refine hs.imp ?_
        intro a b hab
        simpa using hab
      have hmed : sorted.getD m x = sorted[m] := List.getD_eq_getElem _ _ hml
      have hdropm : sorted.drop m = sorted[m] :: sorted.drop (m + 1) :=
        List.drop_eq_getElem_cons hml
      have hkey_take : ∀ p ∈ sorted.take m,
          rawDistance ndim vantage.2 p.2 ≤ rawDistance ndim vantage.2 sorted[m].2 := by
        intro p hp
        have hsplit := List.take_append_drop m sorted
        have hpw2 : (sorted.take m ++ sorted.drop m).Pairwise (fun a b =>
            rawDistance ndim vantage.2 a.2 ≤ rawDistance ndim vantage.2 b.2) := by
          rwa [hsplit]
        have := (List.pairwise_append.mp hpw2).2.2 p hp sorted[m]
          (by rw [hdropm]; exact List.mem_cons_self _ _)
        exact this
      have hkey_drop : ∀ p ∈ sorted.drop m,
          rawDistance ndim vantage.2 sorted[m].2 ≤ rawDistance ndim vantage.2 p.2 := by
        intro p hp
        rw [hdropm] at hp
        rcases List.mem_cons.mp hp with h' | h'
        · rw [h']
        · have hpd : (sorted.drop m).Pairwise (fun a b =>
              rawDistance ndim vantage.2 a.2 ≤ rawDistance ndim vantage.2 b.2) := hpw.drop
          rw [hdropm] at hpd
          exact (List.pairwise_cons.mp hpd).1 p h'
      have hrefv : reference vantage.1 = vantage.2 := hmem vantage hvmem
      have hlen2 : (x :: y :: ys).length ≤ n + 1 := h
      refine VPWF.node _ _ _ _ ?_ ?_ ?_ ?_
      · -- left subtree: within the radius
        intro j hj
        have hperm := buildFromPoints_members ndim rng (n + 1) (sorted.take m)
          (by rw [List.length_take]; simp at hlen2 ⊢; omega) (rng g).2
        have hj2 : j ∈ (sorted.take m).map Prod.fst := hperm.mem_iff.mp hj
        obtain ⟨p, hp, hpj⟩ := List.mem_map.mp hj2
        have hrefp : reference p.1 = p.2 := hmem p (hsub p (List.mem_of_mem_take hp))
        rw [← hpj, qsDist, hrefv, hrefp, hmed]
        exact Real.sqrt_le_sqrt (hkey_take p hp)
      · -- right subtree: at least the radius away
        intro j hj
        have hperm := buildFromPoints_members ndim rng (n + 1) (sorted.drop m)
          (by rw [List.length_drop]; simp at hlen2 ⊢; omega)
          (buildFromPoints ndim rng (sorted.take m) (rng g).2).2
        have hj2 : j ∈ (sorted.drop m).map Prod.fst := hperm.mem_iff.mp hj
        obtain ⟨p, hp, hpj⟩ := List.mem_map.mp hj2
        have hrefp : reference p.1 = p.2 :=
          hmem p (hsub p (List.mem_of_mem_drop hp))
        rw [← hpj, qsDist, hrefv, hrefp, hmed]
        exact Real.sqrt_le_sqrt (hkey_drop p hp)
      · exact ih (sorted.take m)
          (by rw [List.length_take]; simp at hlen2 ⊢; omega)
          (fun p hp => hmem p (hsub p (List.mem_of_mem_take hp))) (rng g).2
      · exact ih (sorted.drop m)
          (by rw [List.length_drop]; simp at hlen2 ⊢; omega)
          (fun p hp => hmem p (hsub p (List.mem_of_mem_drop hp)))
          (buildFromPoints ndim rng (sorted.take m) (rng g).2).2

/-- The constructor-built tree is well-formed. -/
theorem quickSearchTree_wf {σ : Type} (ndim nobs : ℕ) (reference : ℕ → ℕ → ℝ)
    (rng : σ → ℕ × σ) (g : σ) :
    VPWF ndim reference (quickSearchTree ndim nobs reference rng g) := by
  apply buildFromPoints_wf ndim rng reference
    (((List.range nobs).map (fun i => (i, reference i))).length) _ le_rfl _ g
  intro p hp
  obtain ⟨i, hi, rfl⟩ := List.mem_map.mp hp
  rfl

/-- The constructor-built tree holds exactly the indices `0 .. nobs-1`. -/
theorem quickSearchTree_members {σ : Type} (ndim nobs : ℕ) (reference : ℕ → ℕ → ℝ)
    (rng : σ → ℕ × σ) (g : σ) :
    List.Perm (quickSearchTree ndim nobs reference rng g).members
      (List.range nobs) := by
  have h := buildFromPoints_members ndim rng
    (((List.range nobs).map (fun i => (i, reference i))).length)
    ((List.range nobs).map (fun i => (i, reference i))) le_rfl g
  simpa [quickSearchTree, List.map_map, Function.comp_def] using h

/-- `find` on a constructor-built index over `nobs >= 1` points returns an
in-range index whose distance to the query attains the minimum, for any
pivot sampler, as long as all the distances are below the initial
`DBL_MAX` radius. -/
theorem qsFind_spec {σ : Type} (ndim nobs : ℕ) (reference : ℕ → ℕ → ℝ)
    (rng : σ → ℕ × σ) (g : σ) (query : ℕ → ℝ) (h1 : 1 ≤ nobs)
    (hd : ∀ i, i < nobs → qsDist ndim (reference i) query < dblMax) :
    qsFind ndim reference (quickSearchTree ndim nobs reference rng g) query < nobs ∧
    ∀ i, i < nobs →
      qsDist ndim (reference
          (qsFind ndim reference (quickSearchTree ndim nobs reference rng g) query))
          query
        ≤ qsDist ndim (reference i) query := by
  have hwf := quickSearchTree_wf ndim nobs reference rng g
  have hmem := quickSearchTree_members ndim nobs reference rng g
  obtain ⟨hle, hruled, hrec⟩ := searchNN_searchOut ndim reference query
    (quickSearchTree ndim nobs reference rng g) hwf (0, dblMax)
  have h0mem : 0 ∈ (quickSearchTree ndim nobs reference rng g).members :=
    hmem.mem_iff.mpr (List.mem_range.mpr h1)
  have hτlt : (searchNN ndim reference query
      (quickSearchTree ndim nobs reference rng g) (0, dblMax)).2 < dblMax :=
    lt_of_le_of_lt (hruled 0 h0mem) (hd 0 h1)
  rcases hrec with heq | ⟨hmem1, hexact⟩
  · rw [heq] at hτlt
    exact absurd hτlt (lt_irrefl _)
  · refine ⟨List.mem_range.mp (hmem.mem_iff.mp hmem1), ?_⟩
    intro i hi
    have hi' : i ∈ (quickSearchTree ndim nobs reference rng g).members :=
      hmem.mem_iff.mpr (List.mem_range.mpr hi)
    have := hruled i hi'
    rw [qsFind, ← hexact]
    exact this

/-- When the assigned cluster is the unique nearest reference point, `find`
is forced to return it. -/
theorem qsFind_forced {σ : Type} (ndim nobs : ℕ) (reference : ℕ → ℕ → ℝ)
    (rng : σ → ℕ × σ) (g : σ) (query : ℕ → ℝ) (j : ℕ) (hj : j < nobs)
    (huniq : ∀ i, i < nobs → i ≠ j →
      qsDist ndim (reference j) query < qsDist ndim (reference i) query)
    (hd : ∀ i, i < nobs → qsDist ndim (reference i) query < dblMax) :
    qsFind ndim reference (quickSearchTree ndim nobs reference rng g) query = j := by
  have h1 : 1 ≤ nobs := Nat.one_le_iff_ne_zero.mpr (by omega)
  obtain ⟨hrange, hopt⟩ := qsFind_spec ndim nobs reference rng g query h1 hd
  by_contra hne
  have ha := huniq _ hrange hne
  have hb := hopt j hj
  linarith

/-- C4: for every point set used to build the vantage-point tree (any pivot
sampler, any build state) and every query whose distances fit under the
initial `DBL_MAX` radius, `QuickSearch::find` returns an in-range index whose
distance to the query equals the brute-force minimum; ties may therefore
resolve to any of the minimizing points, but never to a farther one. -/
theorem vptree_find_bruteforce_spec {σ : Type} (ndim nobs : ℕ)
    (reference : ℕ → ℕ → ℝ) (rng : σ → ℕ × σ) (g : σ) (query : ℕ → ℝ)
    (h1 : 1 ≤ nobs)
    (hd : ∀ i, i < nobs → qsDist ndim (reference i) query < dblMax) :
    qsFind ndim reference (quickSearchTree ndim nobs reference rng g) query < nobs ∧
    ∀ i, i < nobs →
      qsDist ndim (reference
          (qsFind ndim reference (quickSearchTree ndim nobs reference rng g) query))
          query
        ≤ qsDist ndim (reference i) query :=
  qsFind_spec ndim nobs reference rng g query h1 hd

theorem exRef_dist_lt (i : ℕ) (hi : i < 2) :
    qsDist 1 (exRef i) exQuery < dblMax := by
  have h2 : (0:ℝ) < dblMax := by norm_num [dblMax]
  interval_cases i
  · rw [qsDist, Real.sqrt_lt' h2]
    norm_num [rawDistance, exRef, exQuery, dblMax]
  · rw [qsDist, Real.sqrt_lt' h2]
    norm_num [rawDistance, exRef, exQuery, dblMax]

/-- Witness for C4 at a concrete two-point index and query. -/
theorem vptree_find_bruteforce_spec_witness :
    qsFind 1 exRef (quickSearchTree 1 2 exRef exRng ()) exQuery < 2 ∧
    ∀ i, i < 2 →
      qsDist 1 (exRef (qsFind 1 exRef (quickSearchTree 1 2 exRef exRng ()) exQuery))
          exQuery
        ≤ qsDist 1 (exRef i) exQuery :=
  vptree_find_bruteforce_spec 1 2 exRef exRng () exQuery (by norm_num) exRef_dist_lt

/-- Counterexample for C10: on an index built over 0 reference points the
node vector is empty, and `find` starts by reading node 0 of that empty
vector — an out-of-range access, not a clean return of 0. -/
theorem find_empty_index_oob :
    findArena 1 0 exRef exRng () exQuery = .error "node index out of range" ∧
    findArena 1 0 exRef exRng () exQuery ≠ .ok 0 := by
  constructor
  · simp [findArena, buildArena, searchArena]
  · simp [findArena, buildArena, searchArena]

/-- C10 (amended): for an index built over `nobs >= 1` points, `find` always
returns an index in `[0, nobs)` (its candidate starts at 0 and is only ever
replaced by a stored vantage-point index); for an index built over 0 points
the search does not return 0 but reads node 0 out of range. -/
theorem find_in_range_or_empty_oob {σ : Type} (ndim nobs : ℕ)
    (reference : ℕ → ℕ → ℝ) (rng : σ → ℕ × σ) (g : σ) (query : ℕ → ℝ) :
    (1 ≤ nobs →
      qsFind ndim reference (quickSearchTree ndim nobs reference rng g) query < nobs) ∧
    findArena ndim 0 reference rng g query = .error "node index out of range" := by
  constructor
  · intro h1
    obtain ⟨_, _, hrec⟩ := searchNN_searchOut ndim reference query
      (quickSearchTree ndim nobs reference rng g)
      (quickSearchTree_wf ndim nobs reference rng g) (0, dblMax)
    rcases hrec with heq | ⟨hm, _⟩
    · rw [qsFind, heq]
      exact h1
    · exact List.mem_range.mp
        ((quickSearchTree_members ndim nobs reference rng g).mem_iff.mp hm)
  · simp [findArena, buildArena, searchArena]

/-- Witness for the amended C10 at a one-point index. -/
theorem find_in_range_or_empty_oob_witness :
    qsFind 1 exRef (quickSearchTree 1 1 exRef exRng ()) exQuery < 1 ∧
    findArena 1 0 exRef exRng () exQuery = .error "node index out of range" :=
  ⟨(find_in_range_or_empty_oob 1 1 exRef exRng () exQuery).1 (by norm_num),
   (find_in_range_or_empty_oob 1 1 exRef exRng () exQuery).2⟩

/-- If every observation is already assigned to the index `find` returns,
the first Lloyd pass sees no update and exits immediately. -/
theorem lloydLoop_no_update (ndim nobs : ℕ) (data : ℕ → ℕ → ℝ) (k : ℕ)
    (rem iter : ℕ) (s : LloydState)
    (h : ∀ obs, obs < nobs →
      qsFind ndim s.centers
        (quickSearchTree ndim k s.centers mtNext (mt19937Init 1234567890))
        (data obs) = s.clusters obs) :
    lloydLoop ndim nobs data k (rem + 1) iter s = (iter, s) := by
  rw [lloydLoop]
  rw [if_neg]
  rintro ⟨obs, hobs, hne⟩
  exact hne (h obs hobs)

/-- A Lloyd run on an already-converged input (every observation's `find`
result is its current cluster) exits in one iteration with status 0,
untouched buffers, and the still-zeroed sizes vector. -/
theorem lloydRun_converged (maxiter ndim nobs : ℕ) (ncenters : ℤ)
    (data centers : ℕ → ℕ → ℝ) (clusters : ℕ → ℕ)
    (hedge : isEdgeCase nobs ncenters = false) (hmax : 1 ≤ maxiter)
    (hforce : ∀ obs, obs < nobs →
      qsFind ndim centers
        (quickSearchTree ndim ncenters.toNat centers mtNext (mt19937Init 1234567890))
        (data obs) = clusters obs) :
    lloydRun maxiter ndim nobs data ncenters centers clusters
      = (⟨List.replicate ncenters.toNat 0,
          computeWcss ndim nobs data ncenters.toNat centers clusters, 1, 0⟩,
         centers, clusters) := by
  rw [lloydRun, if_neg (by rw [hedge]; exact Bool.false_ne_true)]
  obtain ⟨rem, hrem⟩ : ∃ rem, maxiter = rem + 1 := ⟨maxiter - 1, by omega⟩
  rw [hrem]
  simp only [lloydLoop_no_update ndim nobs data ncenters.toNat rem 1
    ⟨centers, clusters, List.replicate ncenters.toNat 0, 0⟩ hforce]
  norm_num

theorem lloydEx_forced : ∀ obs, obs < 3 →
    qsFind 1 lloydExCenters
      (quickSearchTree 1 2 lloydExCenters mtNext (mt19937Init 1234567890))
      (lloydExData obs) = lloydExClusters obs := by
  have hMax : (0:ℝ) < dblMax := by norm_num [dblMax]
  intro obs hobs
  interval_cases obs
  · show qsFind 1 lloydExCenters _ _ = 0
    apply qsFind_forced 1 2 lloydExCenters mtNext (mt19937Init 1234567890)
      (lloydExData 0) 0 (by norm_num)
    · intro i hi hne
      interval_cases i
      · exact absurd rfl hne
      · rw [qsDist, qsDist]
        apply Real.sqrt_lt_sqrt
        · norm_num [rawDistance, lloydExCenters, lloydExData, Finset.sum_range_one]
        · norm_num [rawDistance, lloydExCenters, lloydExData, Finset.sum_range_one]
    · intro i hi
      interval_cases i <;>
        · rw [qsDist, Real.sqrt_lt' hMax]
          norm_num [rawDistance, lloydExCenters, lloydExData, dblMax,
            Finset.sum_range_one]
  · show qsFind 1 lloydExCenters _ _ = 0
    apply qsFind_forced 1 2 lloydExCenters mtNext (mt19937Init 1234567890)
      (lloydExData 1) 0 (by norm_num)
    · intro i hi hne
      interval_cases i
      · exact absurd rfl hne
      · rw [qsDist, qsDist]
        apply Real.sqrt_lt_sqrt
        · norm_num [rawDistance, lloydExCenters, lloydExData, Finset.sum_range_one]
        · norm_num [rawDistance, lloydExCenters, lloydExData, Finset.sum_range_one]
    · intro i hi
      interval_cases i <;>
        · rw [qsDist, Real.sqrt_lt' hMax]
          norm_num [rawDistance, lloydExCenters, lloydExData, dblMax,
            Finset.sum_range_one]
  · show qsFind 1 lloydExCenters _ _ = 1
    apply qsFind_forced 1 2 lloydExCenters mtNext (mt19937Init 1234567890)
      (lloydExData 2) 1 (by norm_num)
    · intro i hi hne
      interval_cases i
      · rw [qsDist, qsDist]
        apply Real.sqrt_lt_sqrt
        · norm_num [rawDistance, lloydExCenters, lloydExData, Finset.sum_range_one]
        · norm_num [rawDistance, lloydExCenters, lloydExData, Finset.sum_range_one]
      · exact absurd rfl hne
    · intro i hi
      interval_cases i <;>
        · rw [qsDist, Real.sqrt_lt' hMax]
          norm_num [rawDistance, lloydExCenters, lloydExData, dblMax,
            Finset.sum_range_one]

/-- C1 (failing run): on the valid, already-converged input
(`data = (0, 1, 10)`, `centers = (1/2, 10)`, `clusters = (0, 0, 1)`,
`ncenters = 2 < nobs = 3`), `Lloyd::run` breaks out of its first iteration
before ever counting cluster sizes, and returns `status == 0` with the
still-zeroed sizes vector: `sum(sizes) = 0 != 3 = nobs` and no per-cluster
size is positive, contradicting the claimed invariant (and the guarantee
documented in Details.hpp). -/
theorem lloyd_status0_sizes_all_zero :
    (lloydRun 10 1 3 lloydExData 2 lloydExCenters lloydExClusters).1.status = 0 ∧
    (lloydRun 10 1 3 lloydExData 2 lloydExCenters lloydExClusters).1.sizes
      = [0, 0] ∧
    (lloydRun 10 1 3 lloydExData 2 lloydExCenters lloydExClusters).1.sizes.sum
      ≠ 3 ∧
    ¬ (∀ c ∈ (lloydRun 10 1 3 lloydExData 2 lloydExCenters lloydExClusters).1.sizes,
        0 < c) := by
  have h := lloydRun_converged 10 1 3 2 lloydExData lloydExCenters lloydExClusters
    (by decide) (by norm_num) lloydEx_forced
  rw [h]
  refine ⟨rfl, rfl, by decide, ?_⟩
  intro hall
  have := hall 0 (by decide)
  exact absurd this (by decide)

/-- With a batch size of at least the population, `sample_without_replacement`
returns the whole population in order and consumes no randomness. -/
theorem sampleWithoutReplacement_full (population : ℕ) (us : ℕ → ℝ) (pos : ℕ)
    (hsmall : population < 2 ^ 64) :
    sampleWithoutReplacement population (population : ℤ) us pos
      = some (List.range population, pos) := by
  unfold sampleWithoutReplacement
  have h1 : ((population : ℤ) % (2 ^ 64 : ℤ)).toNat = population := by
    rw [Int.emod_eq_of_lt (by positivity) (by exact_mod_cast hsmall)]
    exact Int.toNat_natCast population
  rw [h1]
  simp

/-- Characterization of the running-mean fold: the per-cluster count grows by
the number of batch members assigned there, and each written coordinate holds
the running mean `(n₀·v₀ + Σ newly assigned points) / (n₀ + #assigned)`. -/
theorem mbUpdate_foldl (ndim : ℕ) (data : ℕ → ℕ → ℝ) (clusters : ℕ → ℕ) :
    ∀ (L : List ℕ) (ts : ℕ → ℕ) (cen : ℕ → ℕ → ℝ) (c : ℕ),
      ((L.foldl (mbUpdateStep ndim data clusters) (ts, cen)).1 c
        = ts c + (L.filter (fun o => clusters o = c)).length)
      ∧ ∀ d, (L.foldl (mbUpdateStep ndim data clusters) (ts, cen)).2 c d
          = if d < ndim then
              (if ts c + (L.filter (fun o => clusters o = c)).length = 0 then cen c d
               else ((ts c : ℝ) * cen c d
                  + ((L.filter (fun o => clusters o = c)).map (fun o => data o d)).sum)
                  / ((ts c : ℝ) + ((L.filter (fun o => clusters o = c)).length : ℝ)))
            else cen c d := by
  intro L
  induction L with
  | nil =>
    intro ts cen c
    refine ⟨by simp, ?_⟩
    intro d
    by_cases hd : d < ndim
    · simp only [List.filter_nil, List.length_nil, Nat.add_zero, List.map_nil,
        List.sum_nil, add_zero, Nat.cast_zero, hd, if_true]
      by_cases hts : ts c = 0
      · simp [hts]
      · have hne : (ts c : ℝ) ≠ 0 := Nat.cast_ne_zero.mpr hts
        rw [if_neg hts]
        exact (mul_div_cancel_left₀ _ hne).symm
    · simp [hd]
  | cons o L ih =>
    intro ts cen c
    rw [List.foldl_cons]
    set cen1 : ℕ → ℕ → ℝ := fun c' d =>
      if c' = clusters o ∧ d < ndim
        then cen c' d + (data o d - cen c' d) / ((ts (clusters o) + 1 : ℕ) : ℝ)
        else cen c' d with hcen1
    have hstep : mbUpdateStep ndim data clusters (ts, cen) o
        = (bump ts (clusters o), cen1) := rfl
    rw [hstep]
    obtain ⟨ih1, ih2⟩ := ih (bump ts (clusters o)) cen1 c
    refine ⟨?_, ?_⟩
    · rw [ih1]
      by_cases hc : clusters o = c
      · subst hc
        simp [bump]
        omega
      · simp [bump, hc, Ne.symm hc]
    · intro d
      rw [ih2 d]
      by_cases hd : d < ndim
      · by_cases hc : clusters o = c
        · subst hc
          have hb : bump ts (clusters o) (clusters o) = ts (clusters o) + 1 := by
            simp [bump]
          have hfilter : ((o :: L).filter (fun x => clusters x = clusters o))
              = o :: (L.filter (fun x => clusters x = clusters o)) := by
            simp
          have hv : cen1 (clusters o) d
              = ((ts (clusters o) : ℝ) * cen (clusters o) d + data o d)
                / ((ts (clusters o) : ℝ) + 1) := by
            simp only [hcen1, eq_self_iff_true, true_and, hd, if_true]
            push_cast
            have hne : ((ts (clusters o) : ℝ) + 1) ≠ 0 := by positivity
            field_simp
            ring
          rw [hb, hfilter, hv]
          simp only [hd, if_true, List.length_cons, List.map_cons, List.sum_cons]
          rw [if_neg (by omega), if_neg (by omega)]
          have hne : ((ts (clusters o) : ℝ) + 1) ≠ 0 := by positivity
          have hne2 : ((ts (clusters o) : ℝ) + 1
              + ((L.filter (fun x => clusters x = clusters o)).length : ℝ)) ≠ 0 := by
            positivity
          push_cast
          field_simp
          ring
        · have hb : bump ts (clusters o) c = ts c := by
            simp [bump, Ne.symm hc]
          have hfilter : ((o :: L).filter (fun x => clusters x = c))
              = L.filter (fun x => clusters x = c) := by
            simp [hc]
          have hv : ∀ d', cen1 c d' = cen c d' := by
            intro d'
            simp only [hcen1]
            simp [Ne.symm hc]
          rw [hb, hfilter]
          simp only [hv]
      · by_cases hc : clusters o = c
        · subst hc
          have hv : cen1 (clusters o) d = cen (clusters o) d := by
            simp only [hcen1]
            simp [hd]
          simp only [hd, if_false, hv]
        · have hv : cen1 c d = cen c d := by
            rw [hcen1]
            simp [Ne.symm hc]
          simp only [hd, if_false, hv]

/-- When no batch member changed its assignment, the tracking fold only adds
each member once to `last_sampled` (at its previous cluster) and leaves
`last_changed` untouched. -/
theorem mbTrack_foldl_nochange (previous clusters : ℕ → ℕ) :
    ∀ (L : List ℕ), (∀ o ∈ L, previous o = clusters o) →
      ∀ (ls lc : ℕ → ℕ),
      ((L.foldl (mbTrackStep previous clusters) (ls, lc)).1
        = fun c => ls c + (L.filter (fun o => previous o = c)).length)
      ∧ (L.foldl (mbTrackStep previous clusters) (ls, lc)).2 = lc := by
  intro L
  induction L with
  | nil =>
    intro _ ls lc
    refine ⟨?_, rfl⟩
    funext c
    simp
  | cons o L ih =>
    intro hsame ls lc
    rw [List.foldl_cons]
    have heq : previous o = clusters o := hsame o (List.mem_cons_self o L)
    have hstep : mbTrackStep previous clusters (ls, lc) o
        = (bump ls (previous o), lc) := by
      simp [mbTrackStep, heq]
    rw [hstep]
    obtain ⟨ih1, ih2⟩ :=
      ih (fun o' ho' => hsame o' (List.mem_cons_of_mem _ ho')) (bump ls (previous o)) lc
    refine ⟨?_, ih2⟩
    rw [ih1]
    funext c
    by_cases hc : previous o = c
    · have hfilter : ((o :: L).filter (fun x => previous x = c))
          = o :: (L.filter (fun x => previous x = c)) := by
        simp [hc]
      have hb : bump ls (previous o) c = ls c + 1 := by
        simp [bump, hc]
      rw [hfilter, hb, List.length_cons]
      omega
    · have hfilter : ((o :: L).filter (fun x => previous x = c))
          = L.filter (fun x => previous x = c) := by
        simp [hc]
      rw [hfilter]
      have : bump ls (previous o) c = ls c := by
        simp [bump]
        intro h
        exact absurd h.symm hc
      rw [this]

/-- A full-population batch whose centers already are the per-cluster means
leaves the centers exactly where they were and adds one full count of every
cluster to `total_sampled`. -/
theorem mbUpdate_foldl_preserves (ndim nobs : ℕ) (data : ℕ → ℕ → ℝ)
    (clusters : ℕ → ℕ) (centers : ℕ → ℕ → ℝ) (t : ℕ)
    (hmeans : ∀ c d, d < ndim →
      centers c d * (clusterCount nobs clusters c : ℝ)
        = (((List.range nobs).filter (fun o => clusters o = c)).map
            (fun o => data o d)).sum) :
    (List.range nobs).foldl (mbUpdateStep ndim data clusters)
        ((fun c => t * clusterCount nobs clusters c), centers)
      = ((fun c => (t + 1) * clusterCount nobs clusters c), centers) := by
  unfold clusterCount at hmeans ⊢
  have h := mbUpdate_foldl ndim data clusters (List.range nobs)
    (fun c => t * ((List.range nobs).filter (fun o => clusters o = c)).length) centers
  refine Prod.ext ?_ ?_
  · funext c
    rw [(h c).1]
    ring
  · funext c d
    rw [(h c).2 d]
    by_cases hd : d < ndim
    · simp only [hd, if_true]
      by_cases hzero :
          ((List.range nobs).filter (fun o => clusters o = c)).length = 0
      · rw [if_pos (by rw [hzero]; simp)]
      · have hpos : 0 < ((List.range nobs).filter
            (fun o => clusters o = c)).length := by omega
        rw [if_neg (by
          have hp := Nat.add_pos_right
            (t * ((List.range nobs).filter (fun o => clusters o = c)).length) hpos
          omega)]
        have hsum := hmeans c d hd
        rw [← hsum]
        have hne : ((t * ((List.range nobs).filter
              (fun o => clusters o = c)).length : ℕ) : ℝ)
            + ((((List.range nobs).filter (fun o => clusters o = c)).length : ℕ) : ℝ)
            ≠ 0 := by
          push_cast
          have : (0:ℝ) < (((List.range nobs).filter
              (fun o => clusters o = c)).length : ℝ) := by exact_mod_cast hpos
          positivity
        field_simp
        ring
    · simp only [hd, if_false]

/-- Helper for the mini-batch convergence argument: with `2 <= history` and
`2 <= iter <= history + 1`, the `iter % history == 1` gate opens exactly at
`iter = history + 1`. -/
theorem mb_mod_gate (history iter : ℕ) (hist2 : 2 ≤ history) (h2 : 2 ≤ iter)
    (hle : iter ≤ history + 1) : (iter % history = 1) ↔ iter = history + 1 := by
  constructor
  · intro hmod
    rcases Nat.lt_or_ge iter history with hlt | hge
    · rw [Nat.mod_eq_of_lt hlt] at hmod
      omega
    · rcases Nat.eq_or_lt_of_le hge with heq | hlt
      · rw [← heq, Nat.mod_self] at hmod
        omega
      · omega
  · intro heq
    subst heq
    rw [Nat.add_mod_left]
    exact Nat.mod_eq_of_lt (by omega)

/-- On an already-converged configuration and a full-population batch, the
mini-batch loop runs deterministically: assignments never change, the
centers return to the per-cluster means after every complete batch, the
change counters stay zero, and the convergence gate at `iter = history + 1`
fires, breaking with the buffers intact. -/
theorem miniBatchLoop_converged (ndim nobs k history : ℕ) (maxChange : ℝ)
    (us : ℕ → ℝ) (data : ℕ → ℕ → ℝ) (centers : ℕ → ℕ → ℝ) (clusters : ℕ → ℕ)
    (hsmall : nobs < 2 ^ 64) (hist2 : 2 ≤ history) (hchange : 0 < maxChange)
    (hforce : ∀ o, o < nobs →
      qsFind ndim centers
        (quickSearchTree ndim k centers mtNext (mt19937Init 1234567890)) (data o)
        = clusters o)
    (hmeans : ∀ c d, d < ndim →
      centers c d * (clusterCount nobs clusters c : ℝ)
        = (((List.range nobs).filter (fun o => clusters o = c)).map
            (fun o => data o d)).sum)
    (hnonempty : ∀ c, c < k → 0 < clusterCount nobs clusters c) :
    ∀ (n rem iter : ℕ) (sprev sts slc sls : ℕ → ℕ) (spos : ℕ),
      history + 1 - iter = n → 1 ≤ iter → iter ≤ history + 1 →
      history + 2 ≤ iter + rem →
      sts = (fun c => (iter - 1) * clusterCount nobs clusters c) →
      slc = (fun _ => 0) →
      sls = (fun c => (iter - 1 - 1) * clusterCount nobs clusters c) →
      ∃ s' : MBState,
        miniBatchLoop ndim nobs data k (nobs : ℤ) history maxChange us rem iter
          ⟨centers, clusters, sprev, sts, slc, sls, spos⟩
          = some (history + 1, s')
        ∧ s'.centers = centers ∧ s'.clusters = clusters := by
  intro n
  induction n using Nat.strong_induction_on with
  | _ n ih =>
    intro rem iter sprev sts slc sls spos hn h1 hle hfuel hts hlc hls
    subst hts hlc hls
    obtain ⟨rem', hrem⟩ : ∃ rem', rem = rem' + 1 := ⟨rem - 1, by omega⟩
    subst hrem
    rw [miniBatchLoop]
    have hsample : sampleWithoutReplacement nobs (nobs : ℤ) us spos
        = some (List.range nobs, spos) :=
      sampleWithoutReplacement_full nobs us spos hsmall
    simp only [hsample]
    have hclusters' : (fun o =>
        if o ∈ List.range nobs then
          qsFind ndim centers
            (quickSearchTree ndim k centers mtNext (mt19937Init 1234567890)) (data o)
        else clusters o) = clusters := by
      funext o
      by_cases ho : o ∈ List.range nobs
      · rw [if_pos ho]
        exact hforce o (List.mem_range.mp ho)
      · rw [if_neg ho]
    simp only [hclusters']
    have hupd := mbUpdate_foldl_preserves ndim nobs data clusters centers
      (iter - 1) hmeans
    simp only [hupd]
    by_cases hiter1 : iter = 1
    · subst hiter1
      simp only [eq_self_iff_true, if_true]
      exact ih (history + 1 - 2) (by omega) rem' 2
        sprev (fun c => (1 - 1 + 1) * clusterCount nobs clusters c) (fun x => 0)
        (fun c => (1 - 1 - 1) * clusterCount nobs clusters c) spos
        rfl (by omega) (by omega) (by omega)
        (by funext c; norm_num) rfl (by funext c; norm_num)
    · simp only [if_neg hiter1]
      have h2 : 2 ≤ iter := by omega
      have hsame : ∀ o ∈ List.range nobs,
          (fun o => if o ∈ List.range nobs then clusters o else sprev o) o
            = clusters o := by
        intro o ho
        simp only [ho, if_pos]
      obtain ⟨htr1, htr2⟩ := mbTrack_foldl_nochange
        (fun o => if o ∈ List.range nobs then clusters o else sprev o) clusters
        (List.range nobs) hsame
        (fun c => (iter - 1 - 1) * clusterCount nobs clusters c) (fun _ => 0)
      have hcount : ∀ c, ((List.range nobs).filter
          (fun o => (if o ∈ List.range nobs then clusters o else sprev o) = c)).length
          = clusterCount nobs clusters c := by
        intro c
        unfold clusterCount
        congr 1
        apply List.filter_congr
        intro o ho
        simp [ho]
      simp only [htr1, htr2, hcount]
      by_cases hgate : iter % history = 1
      · have hbreak : iter = history + 1 := (mb_mod_gate history iter hist2 h2 hle).mp hgate
        rw [if_pos hgate]
        rw [if_neg ?hno]
        case hno =>
          rintro ⟨c, hck, hbad⟩
          have hcnt := hnonempty c hck
          have hpos : (0:ℝ) < ((iter - 1 - 1) * clusterCount nobs clusters c
              + clusterCount nobs clusters c : ℕ) * maxChange := by
            apply mul_pos _ hchange
            exact_mod_cast Nat.add_pos_right _ hcnt
          push_cast at hbad hpos
          simp at hbad
          linarith
        exact ⟨_, by rw [hbreak], rfl, rfl⟩
      · rw [if_neg hgate]
        have hlt : iter < history + 1 := by
          rcases Nat.eq_or_lt_of_le hle with heq | hlt
          · exact absurd ((mb_mod_gate history iter hist2 h2 hle).mpr heq) hgate
          · exact hlt
        have := ih (history + 1 - (iter + 1)) (by omega) rem' (iter + 1)
          (fun o => if o ∈ List.range nobs then clusters o else sprev o)
          (fun c => (iter + 1 - 1) * clusterCount nobs clusters c) (fun _ => 0)
          (fun c => (iter + 1 - 1 - 1) * clusterCount nobs clusters c) spos
          rfl (by omega) (by omega) (by omega) rfl rfl rfl
        obtain ⟨s', hs', hc', hcl'⟩ := this
        refine ⟨s', ?_, hc', hcl'⟩
        rw [← hs']
        have e1 : (fun c => (iter - 1 + 1) * clusterCount nobs clusters c)
            = (fun c => (iter + 1 - 1) * clusterCount nobs clusters c) := by
          funext c
          congr 1
          omega
        have e2 : (fun c => (iter - 1 - 1) * clusterCount nobs clusters c
              + clusterCount nobs clusters c)
            = (fun c => (iter + 1 - 1 - 1) * clusterCount nobs clusters c) := by
          funext c
          have hit : iter + 1 - 1 - 1 = (iter - 1 - 1) + 1 := by omega
          rw [hit, Nat.succ_mul]
        rw [e1, e2]

/-- `Finset`-counting of a filtered range agrees with `List`-counting. -/
theorem card_filter_range_eq_length (n : ℕ) (p : ℕ → Prop) [DecidablePred p] :
    ((Finset.range n).filter p).card
      = ((List.range n).filter (fun o => decide (p o))).length := rfl

/-- `Finset`-summing over a filtered range agrees with `List`-summing. -/
theorem sum_filter_range_eq_listSum (n : ℕ) (p : ℕ → Prop) [DecidablePred p]
    (f : ℕ → ℝ) :
    ∑ o ∈ (Finset.range n).filter p, f o
      = (((List.range n).filter (fun o => decide (p o))).map f).sum := rfl

/-- A full `MiniBatch::run` on an already-converged configuration with a
full-population batch: the loop breaks at `iter = history + 1` with status 0,
and the final full pass and centroid recomputation reproduce the incoming
buffers exactly. -/
theorem miniBatchRun_converged (maxiter : ℕ) (batchSize : ℤ) (history : ℕ)
    (maxChange : ℝ) (us : ℕ → ℝ) (ndim nobs : ℕ) (data : ℕ → ℕ → ℝ)
    (ncenters : ℤ) (centers : ℕ → ℕ → ℝ) (clusters : ℕ → ℕ)
    (hedge : isEdgeCase nobs ncenters = false)
    (hsmall : nobs < 2 ^ 64)
    (hbatch : (nobs : ℤ) ≤ batchSize)
    (hist2 : 2 ≤ history) (hmaxiter : history + 1 ≤ maxiter)
    (hchange : 0 < maxChange)
    (hforce : ∀ o, o < nobs →
      qsFind ndim centers
        (quickSearchTree ndim ncenters.toNat centers mtNext (mt19937Init 1234567890))
        (data o) = clusters o)
    (hmeans : ∀ c d, d < ndim →
      centers c d * (clusterCount nobs clusters c : ℝ)
        = (((List.range nobs).filter (fun o => clusters o = c)).map
            (fun o => data o d)).sum)
    (hnonempty : ∀ c, c < ncenters.toNat → 0 < clusterCount nobs clusters c) :
    ∃ det : Details ℝ,
      miniBatchRun maxiter batchSize history maxChange us ndim nobs data ncenters
          centers clusters
        = some (det, centers, clusters)
      ∧ det.iterations = history + 1 ∧ det.status = 0 := by
  rw [miniBatchRun, if_neg (by rw [hedge]; exact Bool.false_ne_true)]
  have hmin : min batchSize (nobs : ℤ) = (nobs : ℤ) := min_eq_right hbatch
  obtain ⟨s', hs', hcen', hcl'⟩ := miniBatchLoop_converged ndim nobs ncenters.toNat
    history maxChange us data centers clusters hsmall hist2 hchange hforce hmeans
    hnonempty history maxiter 1 (fun _ => 0) (fun _ => 0) (fun _ => 0) (fun _ => 0) 0
    (by omega) (by omega) (by omega) (by omega)
    (by funext c; norm_num) rfl (by funext c; norm_num)
  simp only [hmin, hs']
  rw [hcen']
  have hcl2 : ∀ o, (if o < nobs then
      qsFind ndim centers
        (quickSearchTree ndim ncenters.toNat centers mtNext (mt19937Init 1234567890))
        (data o)
      else s'.clusters o) = clusters o := by
    intro o
    by_cases ho : o < nobs
    · rw [if_pos ho]
      exact hforce o ho
    · rw [if_neg ho, hcl']
  simp only [hcl2]
  have hsizes : ∀ c, c < ncenters.toNat →
      ((List.range ncenters.toNat).map
        (fun c => ((Finset.range nobs).filter (fun o => clusters o = c)).card)).getD c 0
      = clusterCount nobs clusters c := by
    intro c hc
    rw [List.getD_eq_getElem _ _ (by simpa using hc)]
    simp [clusterCount, card_filter_range_eq_length]
  have hstat : ¬ ∃ c, c < ncenters.toNat ∧
      ((List.range ncenters.toNat).map
        (fun c => ((Finset.range nobs).filter (fun o => clusters o = c)).card)).getD c 0
        = 0 := by
    rintro ⟨c, hck, hzero⟩
    rw [hsizes c hck] at hzero
    exact absurd hzero (by have := hnonempty c hck; omega)
  simp only [hstat, if_false]
  have hcc : computeCentroids ndim nobs data ncenters.toNat centers clusters
      ((List.range ncenters.toNat).map
        (fun c => ((Finset.range nobs).filter (fun o => clusters o = c)).card))
      = centers := by
    funext c d
    unfold computeCentroids
    by_cases hcd : c < ncenters.toNat ∧ d < ndim
    · rw [if_pos hcd]
      rw [hsizes c hcd.1]
      have hcnt := hnonempty c hcd.1
      rw [if_pos (by omega)]
      have hsum := hmeans c d hcd.2
      rw [sum_filter_range_eq_listSum]
      rw [← hsum]
      exact mul_div_cancel_right₀ _
        (by exact_mod_cast Nat.pos_iff_ne_zero.mp hcnt)
    · rw [if_neg hcd]
  rw [hcc]
  refine ⟨_, rfl, ?_, ?_⟩
  · rfl
  · show (if history + 1 = maxiter + 1 then (2:ℤ) else 0) = 0
    rw [if_neg (by omega)]

/-- **C5** (amended): re-running refinement on an already-converged
`(centers, clusters)` pair — every observation strictly nearest to its own
centroid, every centroid the mean of its cluster, no empty cluster — leaves
both buffers unchanged and returns status 0 after the minimal number of
iterations: 1 for Lloyd (unconditionally: the first no-change check breaks
immediately), and `history + 1` for MiniBatch (the earliest iteration at
which the convergence gate is evaluated) PROVIDED the batch covers the
whole dataset (`nobs <= batch_size`), with the budgets allowing it
(`1 <= maxiter` for Lloyd, `history + 1 <= maxiter` and `2 <= history`,
`0 < p` for MiniBatch).  The full-batch proviso is necessary: in the strict
mini-batch regime the running-mean update moves the sampled centroids and
the final full pass can reassign observations — see the counterexample. -/
theorem refine_idempotent_on_converged
    (ndim nobs : ℕ) (ncenters : ℤ) (data centers : ℕ → ℕ → ℝ) (clusters : ℕ → ℕ)
    (maxiterL maxiter : ℕ) (batchSize : ℤ) (history : ℕ) (maxChange : ℝ)
    (us : ℕ → ℝ)
    (hedge : isEdgeCase nobs ncenters = false)
    (hsmall : nobs < 2 ^ 64)
    (hmaxL : 1 ≤ maxiterL)
    (hbatch : (nobs : ℤ) ≤ batchSize)
    (hist2 : 2 ≤ history) (hmaxiter : history + 1 ≤ maxiter)
    (hchange : 0 < maxChange)
    (hclrange : ∀ o, o < nobs → clusters o < ncenters.toNat)
    (huniq : ∀ o, o < nobs → ∀ c, c < ncenters.toNat → c ≠ clusters o →
      qsDist ndim (centers (clusters o)) (data o)
        < qsDist ndim (centers c) (data o))
    (hdmax : ∀ o, o < nobs → ∀ c, c < ncenters.toNat →
      qsDist ndim (centers c) (data o) < dblMax)
    (hmeans : ∀ c d, d < ndim →
      centers c d * (clusterCount nobs clusters c : ℝ)
        = (((List.range nobs).filter (fun o => clusters o = c)).map
            (fun o => data o d)).sum)
    (hnonempty : ∀ c, c < ncenters.toNat → 0 < clusterCount nobs clusters c) :
    ((lloydRun maxiterL ndim nobs data ncenters centers clusters).2.1 = centers
      ∧ (lloydRun maxiterL ndim nobs data ncenters centers clusters).2.2 = clusters
      ∧ (lloydRun maxiterL ndim nobs data ncenters centers clusters).1.iterations = 1
      ∧ (lloydRun maxiterL ndim nobs data ncenters centers clusters).1.status = 0)
    ∧ (∃ det : Details ℝ,
        miniBatchRun maxiter batchSize history maxChange us ndim nobs data ncenters
            centers clusters = some (det, centers, clusters)
        ∧ det.iterations = history + 1 ∧ det.status = 0) := by
  have hforce : ∀ o, o < nobs →
      qsFind ndim centers
        (quickSearchTree ndim ncenters.toNat centers mtNext (mt19937Init 1234567890))
        (data o) = clusters o := by
    intro o ho
    exact qsFind_forced ndim ncenters.toNat centers mtNext (mt19937Init 1234567890)
      (data o) (clusters o) (hclrange o ho)
      (fun i hi hne => huniq o ho i hi hne) (fun i hi => hdmax o ho i hi)
  constructor
  · have h := lloydRun_converged maxiterL ndim nobs ncenters data centers clusters
      hedge hmaxL hforce
    rw [h]
    exact ⟨rfl, rfl, rfl, rfl⟩
  · exact miniBatchRun_converged maxiter batchSize history maxChange us ndim nobs
      data ncenters centers clusters hedge hsmall hbatch hist2 hmaxiter hchange
      hforce hmeans hnonempty

/-- The unique-nearest hypothesis at the concrete converged example. -/
theorem lloydEx_uniq : ∀ o, o < 3 → ∀ c, c < 2 → c ≠ lloydExClusters o →
    qsDist 1 (lloydExCenters (lloydExClusters o)) (lloydExData o)
      < qsDist 1 (lloydExCenters c) (lloydExData o) := by
  intro o ho c hc hne
  interval_cases o <;> interval_cases c <;>
    simp_all [lloydExClusters] <;>
    · rw [qsDist, qsDist]
      apply Real.sqrt_lt_sqrt <;>
        norm_num [rawDistance, lloydExCenters, lloydExData, Finset.sum_range_one]

/-- The below-DBL_MAX hypothesis at the concrete converged example. -/
theorem lloydEx_dmax : ∀ o, o < 3 → ∀ c, c < 2 →
    qsDist 1 (lloydExCenters c) (lloydExData o) < dblMax := by
  have hMax : (0:ℝ) < dblMax := by norm_num [dblMax]
  intro o ho c hc
  interval_cases o <;> interval_cases c <;>
    · rw [qsDist, Real.sqrt_lt' hMax]
      norm_num [rawDistance, lloydExCenters, lloydExData, dblMax, Finset.sum_range_one]

/-- The centroid-mean hypothesis at the concrete converged example. -/
theorem lloydEx_means : ∀ c d, d < 1 →
    lloydExCenters c d * (clusterCount 3 lloydExClusters c : ℝ)
      = (((List.range 3).filter (fun o => lloydExClusters o = c)).map
          (fun o => lloydExData o d)).sum := by
  intro c d hd
  interval_cases d
  by_cases h0 : c = 0
  · subst h0
    norm_num [lloydExCenters, lloydExData, lloydExClusters, clusterCount,
      List.range_succ]
  · by_cases h1 : c = 1
    · subst h1
      norm_num [lloydExCenters, lloydExData, lloydExClusters, clusterCount,
        List.range_succ]
    · have hfil : (List.range 3).filter (fun o => lloydExClusters o = c) = [] := by
        apply List.filter_eq_nil_iff.mpr
        intro o ho
        simp only [decide_eq_true_eq]
        intro hco
        rw [List.mem_range] at ho
        interval_cases o <;> simp [lloydExClusters] at hco <;> omega
      rw [show clusterCount 3 lloydExClusters c
          = ((List.range 3).filter (fun o => lloydExClusters o = c)).length from rfl]
      rw [hfil]
      simp

/-- Witness for C5 at the concrete converged example (Lloyd with default
budget 10; MiniBatch with defaults `maxiter = 100`, `batch_size = 500`,
`history = 10`, `p = 0.01`). -/
theorem refine_idempotent_on_converged_witness :
    ((lloydRun 10 1 3 lloydExData 2 lloydExCenters lloydExClusters).2.1
        = lloydExCenters
      ∧ (lloydRun 10 1 3 lloydExData 2 lloydExCenters lloydExClusters).2.2
        = lloydExClusters
      ∧ (lloydRun 10 1 3 lloydExData 2 lloydExCenters lloydExClusters).1.iterations = 1
      ∧ (lloydRun 10 1 3 lloydExData 2 lloydExCenters lloydExClusters).1.status = 0)
    ∧ (∃ det : Details ℝ,
        miniBatchRun 100 500 10 (1/100) (fun _ => 0) 1 3 lloydExData 2
            lloydExCenters lloydExClusters = some (det, lloydExCenters, lloydExClusters)
        ∧ det.iterations = 10 + 1 ∧ det.status = 0) :=
  refine_idempotent_on_converged 1 3 2 lloydExData lloydExCenters lloydExClusters
    10 100 500 10 (1/100) (fun _ => 0)
    (by decide) (by norm_num) (by norm_num) (by norm_num) (by norm_num) (by norm_num)
    (by norm_num)
    (by intro o ho; interval_cases o <;> decide)
    lloydEx_uniq lloydEx_dmax lloydEx_means
    (by
      intro c hc
      have hc2 : c < 2 := by simpa using hc
      interval_cases c <;> decide)

/-- With `ncenters ≤ 0` and at least one observation, `process_edge_case`
falls through to its final branch: an empty `Details` with status 3 and
untouched buffers. -/
theorem processEdgeCase_nonpos {α : Type} [LinearOrderedField α]
    (ndim nobs : ℕ) (data : ℕ → ℕ → α) (ncenters : ℤ)
    (centers : ℕ → ℕ → α) (clusters : ℕ → ℕ)
    (hk : ncenters ≤ 0) (hn : 1 ≤ nobs) :
    processEdgeCase ndim nobs data ncenters centers clusters
      = (⟨[], [], 0, 3⟩, centers, clusters) := by
  have h1 : ¬(ncenters = 1) := by omega
  have h2 : ¬((nobs : ℤ) ≤ ncenters) := by
    have : (1 : ℤ) ≤ (nobs : ℤ) := by exact_mod_cast hn
    omega
  simp [processEdgeCase, h1, h2]

/-- `ncenters ≤ 0` is always routed through the edge-case handler. -/
theorem isEdgeCase_of_nonpos (nobs : ℕ) (ncenters : ℤ) (hk : ncenters ≤ 0) :
    isEdgeCase nobs ncenters = true := by
  simp [isEdgeCase]
  omega

/-- C3 counterexample: with `ncenters = 0` and one observation, all three
refiners return normally through the edge-case handler with the status-3
`Details` — nothing is thrown. -/
theorem ncenters_zero_not_thrown :
    lloydRun 10 1 1 (fun _ _ => (0 : ℝ)) 0 (fun _ _ => 0) (fun _ => 0)
      = (⟨[], [], 0, 3⟩, fun _ _ => 0, fun _ => 0)
    ∧ miniBatchRun 10 500 10 (1 / 100) (fun _ => 0) 1 1 (fun _ _ => (0 : ℝ))
        0 (fun _ _ => 0) (fun _ => 0)
      = some (⟨[], [], 0, 3⟩, fun _ _ => 0, fun _ => 0)
    ∧ hwRun 10 (2 ^ 31 - 1) 1 1 (fun _ _ => (0 : ℝ)) 0 (fun _ _ => 0)
        (fun _ => 0)
      = .ok (⟨[], [], 0, 3⟩, fun _ _ => 0, fun _ => 0) := by
  have he := isEdgeCase_of_nonpos 1 0 (by decide)
  have hp := processEdgeCase_nonpos 1 1 (fun _ _ => (0 : ℝ)) 0 (fun _ _ => 0)
    (fun _ => 0) (by decide) (by decide)
  refine ⟨?_, ?_, ?_⟩
  · rw [lloydRun, if_pos he, hp]
  · rw [miniBatchRun, if_pos he, hp]
  · rw [hwRun, if_neg (by decide : ¬ (0 : ℤ) < 0), if_pos he, hp]

/-- **C3** (amended): with `ncenters ≤ 0` and `nobs ≥ 1`, Lloyd and
MiniBatch never throw — both return normally through the edge-case handler
with the fatal-configuration status code 3, empty sizes and WCSS, and
untouched buffers; HartiganWong does the same when `ncenters = 0`, while
for `ncenters < 0` it throws `std::length_error` at entry (from resizing
its member vectors to a negative-turned-huge count), not an intentional
configuration report. -/
theorem ncenters_nonpos_status_code (maxiter : ℕ) (indexMax : ℤ)
    (batchSize : ℤ) (history : ℕ) (maxChange : ℝ) (us : ℕ → ℝ)
    (ndim nobs : ℕ) (data : ℕ → ℕ → ℝ) (ncenters : ℤ)
    (centers : ℕ → ℕ → ℝ) (clusters : ℕ → ℕ)
    (hk : ncenters ≤ 0) (hn : 1 ≤ nobs) :
    lloydRun maxiter ndim nobs data ncenters centers clusters
        = (⟨[], [], 0, 3⟩, centers, clusters)
      ∧ miniBatchRun maxiter batchSize history maxChange us ndim nobs data
          ncenters centers clusters
        = some (⟨[], [], 0, 3⟩, centers, clusters)
      ∧ (ncenters = 0 →
          hwRun maxiter indexMax ndim nobs data ncenters centers clusters
            = .ok (⟨[], [], 0, 3⟩, centers, clusters))
      ∧ (ncenters < 0 →
          hwRun maxiter indexMax ndim nobs data ncenters centers clusters
            = .error "length_error") := by
  have he := isEdgeCase_of_nonpos nobs ncenters hk
  have hp := processEdgeCase_nonpos ndim nobs data ncenters centers clusters hk hn
  refine ⟨?_, ?_, ?_, ?_⟩
  · rw [lloydRun, if_pos he, hp]
  · rw [miniBatchRun, if_pos he, hp]
  · intro h0
    rw [hwRun, if_neg (by omega : ¬ ncenters < 0), if_pos he, hp]
  · intro hneg
    rw [hwRun, if_pos hneg]

/-- Witness for the amended C3 theorem at concrete inputs on both sides of
the HartiganWong split. -/
theorem ncenters_nonpos_status_code_witness :
    lloydRun 10 1 2 (fun _ _ => (0 : ℝ)) (-2) (fun _ _ => 0) (fun _ => 0)
      = (⟨[], [], 0, 3⟩, fun _ _ => 0, fun _ => 0)
    ∧ miniBatchRun 10 500 10 (1 / 100) (fun _ => 0) 1 2 (fun _ _ => (0 : ℝ))
        (-2) (fun _ _ => 0) (fun _ => 0)
      = some (⟨[], [], 0, 3⟩, fun _ _ => 0, fun _ => 0)
    ∧ hwRun 10 (2 ^ 31 - 1) 1 2 (fun _ _ => (0 : ℝ)) (-2) (fun _ _ => 0)
        (fun _ => 0) = .error "length_error"
    ∧ hwRun 10 (2 ^ 31 - 1) 1 2 (fun _ _ => (0 : ℝ)) 0 (fun _ _ => 0)
        (fun _ => 0) = .ok (⟨[], [], 0, 3⟩, fun _ _ => 0, fun _ => 0) := by
  have h := ncenters_nonpos_status_code 10 (2 ^ 31 - 1) 500 10 (1 / 100)
    (fun _ => 0) 1 2 (fun _ _ => 0) (-2) (fun _ _ => 0) (fun _ => 0)
    (by decide) (by decide)
  have h0 := ncenters_nonpos_status_code 10 (2 ^ 31 - 1) 500 10 (1 / 100)
    (fun _ => 0) 1 2 (fun _ _ => 0) 0 (fun _ _ => 0) (fun _ => 0)
    (by decide) (by decide)
  exact ⟨h.1, h.2.1, h.2.2.2 (by decide), h0.2.2.1 rfl⟩

theorem hwCe_seed (o : ℕ) (ho : o < 3) :
    hwSeedPair 1 2 hwCeData hwExCenters o = (0, 1) := by
  interval_cases o <;>
    · simp [hwSeedPair, hwSeedInit, rawDistance, hwCeData, hwExCenters,
        Finset.sum_range_one, List.range']
      norm_num

theorem hwCe_ic1 (o : ℕ) :
    hwIc1 1 2 3 hwCeData hwExCenters (fun _ => 0) o = 0 := by
  by_cases ho : o < 3
  · rw [hwIc1, if_pos ho, hwCe_seed o ho]
  · simp [hwIc1, ho]

theorem hwCe_empty :
    ∃ c, c < 2 ∧ hwNc 3 (hwIc1 1 2 3 hwCeData hwExCenters (fun _ => 0)) c = 0 := by
  refine ⟨1, by norm_num, ?_⟩
  have : (List.range 3).filter
      (fun o => hwIc1 1 2 3 hwCeData hwExCenters (fun _ => 0) o = 1) = [] := by
    simp [show List.range 3 = [0, 1, 2] from rfl, List.filter, hwCe_ic1]
  simp [hwNc, this]

/-- C6 counterexample: with `indexMax = 100` (`indexMax / 50 = 2 < nobs = 3`)
the overflow condition holds, yet the run returns normally with the
empty-cluster status 1: the throw is reached only after the seeding and the
empty-cluster check, not eagerly at entry. -/
theorem hw_overflow_not_at_entry :
    (100 : ℤ) / 50 < (3 : ℕ) ∧
    ∃ cen cl,
      hwRun 10 100 1 3 hwCeData 2 hwExCenters (fun _ => 0)
        = .ok (⟨[], [], 0, 1⟩, cen, cl) := by
  refine ⟨by decide, ?_⟩
  have hedge : isEdgeCase 3 (2 : ℤ) = false := by decide
  rw [hwRun, if_neg (by decide : ¬ (2 : ℤ) < 0), hedge]
  simp only [Bool.false_eq_true, if_false]
  have hk : (2 : ℤ).toNat = 2 := rfl
  simp only [hk]
  rw [if_pos hwCe_empty]
  exact ⟨_, _, rfl⟩

theorem hwOv_seed0 : hwSeedPair 1 2 hwOvData hwExCenters 0 = (0, 1) := by
  simp [hwSeedPair, hwSeedInit, rawDistance, hwOvData, hwExCenters,
    Finset.sum_range_one, List.range']
  norm_num

theorem hwOv_seed1 : hwSeedPair 1 2 hwOvData hwExCenters 1 = (0, 1) := by
  simp [hwSeedPair, hwSeedInit, rawDistance, hwOvData, hwExCenters,
    Finset.sum_range_one, List.range']
  norm_num

theorem hwOv_seed2 : hwSeedPair 1 2 hwOvData hwExCenters 2 = (1, 0) := by
  simp [hwSeedPair, hwSeedInit, rawDistance, hwOvData, hwExCenters,
    Finset.sum_range_one, List.range']

theorem hwOv_noempty :
    ¬ ∃ c, c < 2 ∧
      hwNc 3 (hwIc1 1 2 3 hwOvData hwExCenters (fun _ => 0)) c = 0 := by
  have h0 : hwIc1 1 2 3 hwOvData hwExCenters (fun _ => 0) 0 = 0 := by
    rw [hwIc1]; simp [hwOv_seed0]
  have h1 : hwIc1 1 2 3 hwOvData hwExCenters (fun _ => 0) 1 = 0 := by
    rw [hwIc1]; simp [hwOv_seed1]
  have h2 : hwIc1 1 2 3 hwOvData hwExCenters (fun _ => 0) 2 = 1 := by
    rw [hwIc1]; simp [hwOv_seed2]
  rintro ⟨c, hc, hz⟩
  interval_cases c
  · rw [hwNc] at hz
    simp [show List.range 3 = [0, 1, 2] from rfl, List.filter, h0, h1, h2] at hz
  · rw [hwNc] at hz
    simp [show List.range 3 = [0, 1, 2] from rfl, List.filter, h0, h1, h2] at hz

/-- A non-edge-case input requests at least two centers. -/
theorem isEdgeCase_false_lower (nobs : ℕ) (ncenters : ℤ)
    (h : isEdgeCase nobs ncenters = false) : 2 ≤ ncenters := by
  rw [isEdgeCase] at h
  simp only [decide_eq_false_iff_not, not_or, not_le] at h
  omega

/-- **C6** (amended): the index-overflow throw of `HartiganWong::run` is
real but is not checked eagerly at entry.  (1) On non-edge-case input with
`nobs ≤ indexMax / 50`, no error is ever thrown.  (2) On non-edge-case
input with `indexMax / 50 < nobs`, the run throws the configuration error
if and only if the seeding stage leaves no cluster empty; an empty seeded
cluster instead returns the status-1 `Details` before the check is
reached. -/
theorem hw_overflow_check_spec (maxiter : ℕ) (indexMax : ℤ) (ndim nobs : ℕ)
    (data : ℕ → ℕ → ℝ) (ncenters : ℤ) (centers : ℕ → ℕ → ℝ)
    (clusters : ℕ → ℕ) :
    (isEdgeCase nobs ncenters = false → ¬ indexMax / 50 < (nobs : ℤ) →
      ∀ msg, hwRun maxiter indexMax ndim nobs data ncenters centers clusters
        ≠ .error msg)
    ∧ (isEdgeCase nobs ncenters = false → indexMax / 50 < (nobs : ℤ) →
        ((¬ ∃ c, c < ncenters.toNat ∧
            hwNc nobs (hwIc1 ndim ncenters.toNat nobs data centers clusters) c
              = 0) →
          hwRun maxiter indexMax ndim nobs data ncenters centers clusters
            = .error "too many observations for the index integer type")
        ∧ ((∃ c, c < ncenters.toNat ∧
            hwNc nobs (hwIc1 ndim ncenters.toNat nobs data centers clusters) c
              = 0) →
          ∃ cen cl,
            hwRun maxiter indexMax ndim nobs data ncenters centers clusters
              = .ok (⟨[], [], 0, 1⟩, cen, cl))) := by
  constructor
  · intro hedge hno msg
    have hk2 := isEdgeCase_false_lower nobs ncenters hedge
    rw [hwRun, if_neg (by omega : ¬ ncenters < 0), hedge]
    simp only [Bool.false_eq_true, if_false]
    by_cases hemp : ∃ c, c < ncenters.toNat ∧
        hwNc nobs (hwIc1 ndim ncenters.toNat nobs data centers clusters) c = 0
    · rw [if_pos hemp]; simp
    · rw [if_neg hemp, if_neg hno]; simp
  · intro hedge hover
    have hk2 := isEdgeCase_false_lower nobs ncenters hedge
    constructor
    · intro hne
      rw [hwRun, if_neg (by omega : ¬ ncenters < 0), hedge]
      simp only [Bool.false_eq_true, if_false]
      rw [if_neg hne, if_pos hover]
    · intro hemp
      rw [hwRun, if_neg (by omega : ¬ ncenters < 0), hedge]
      simp only [Bool.false_eq_true, if_false]
      rw [if_pos hemp]
      exact ⟨_, _, rfl⟩

/-- Witness for the amended C6 theorem: a non-edge input above the budget
whose seeding fills every cluster does throw. -/
theorem hw_overflow_check_spec_witness :
    hwRun 10 100 1 3 hwOvData 2 hwExCenters (fun _ => 0)
      = .error "too many observations for the index integer type" :=
  ((hw_overflow_check_spec 10 100 1 3 hwOvData 2 hwExCenters (fun _ => 0)).2
    (by decide) (by decide)).1 hwOv_noempty

theorem foldl_preserve {α β : Type} (f : α → β → α) (P : α → Prop) :
    ∀ (l : List β) (a : α), P a → (∀ x a', x ∈ l → P a' → P (f a' x)) →
      P (l.foldl f a)
  | [], a, ha, _ => ha
  | x :: xs, a, ha, hstep =>
    foldl_preserve f P xs (f a x) (hstep x a (List.mem_cons_self x xs) ha)
      (fun y a' hy => hstep y a' (List.mem_cons_of_mem _ hy))

theorem transferPoint_inv (ndim nobs k : ℕ) (data : ℕ → ℕ → ℝ) (s : HWState)
    (obs l1 l2 : ℕ) (hInv : HWInv nobs k s) (hobs : obs < nobs)
    (hl1 : l1 < k) (hl2 : l2 < k) (hne : l2 ≠ l1) (h2 : 2 ≤ s.nc l1) :
    HWInv nobs k (transferPoint ndim data s obs l1 l2)
    ∧ (transferPoint ndim data s obs l1 l2).nc l1 = s.nc l1 - 1
    ∧ (transferPoint ndim data s obs l1 l2).nc l2 = s.nc l2 + 1
    ∧ (transferPoint ndim data s obs l1 l2).ic1 obs = l2
    ∧ (transferPoint ndim data s obs l1 l2).ic2 obs = l1 := by
  obtain ⟨hsum, hpos, hic⟩ := hInv
  have hn1 : (transferPoint ndim data s obs l1 l2).nc l1 = s.nc l1 - 1 := by
    simp [transferPoint]
  have hn2 : (transferPoint ndim data s obs l1 l2).nc l2 = s.nc l2 + 1 := by
    simp [transferPoint, hne]
  have hno : ∀ c, c ≠ l1 → c ≠ l2 →
      (transferPoint ndim data s obs l1 l2).nc c = s.nc c := by
    intro c hc1 hc2
    simp [transferPoint, hc1, hc2]
  have hi1 : (transferPoint ndim data s obs l1 l2).ic1 obs = l2 := by
    simp [transferPoint]
  have hi2 : (transferPoint ndim data s obs l1 l2).ic2 obs = l1 := by
    simp [transferPoint]
  refine ⟨⟨?_, ?_, ?_⟩, hn1, hn2, hi1, hi2⟩
  · have hz : ∀ c ∈ Finset.range k,
        ((transferPoint ndim data s obs l1 l2).nc c : ℤ) - (s.nc c : ℤ)
          = (if c = l1 then (-1 : ℤ) else 0) + (if c = l2 then 1 else 0) := by
      intro c _
      rcases eq_or_ne c l1 with rfl | hc1
      · rw [hn1, Nat.cast_sub (by omega)]
        simp [Ne.symm hne]
      · rcases eq_or_ne c l2 with rfl | hc2
        · rw [hn2]
          push_cast
          simp [hc1]
        · rw [hno c hc1 hc2]
          simp [hc1, hc2]
    have : ((∑ c ∈ Finset.range k, (transferPoint ndim data s obs l1 l2).nc c : ℕ) : ℤ)
        = ((∑ c ∈ Finset.range k, s.nc c : ℕ) : ℤ) := by
      push_cast
      rw [← sub_eq_zero, ← Finset.sum_sub_distrib, Finset.sum_congr rfl hz,
        Finset.sum_add_distrib, Finset.sum_ite_eq' (Finset.range k) l1 (fun _ => (-1 : ℤ)),
        Finset.sum_ite_eq' (Finset.range k) l2 (fun _ => (1 : ℤ))]
      simp [Finset.mem_range.mpr hl1, Finset.mem_range.mpr hl2]
    have hsumz : ((∑ c ∈ Finset.range k, s.nc c : ℕ) : ℤ) = (nobs : ℤ) := by
      exact_mod_cast hsum
    exact_mod_cast this.trans hsumz
  · intro c hc
    rcases eq_or_ne c l1 with rfl | hc1
    · rw [hn1]; omega
    · rcases eq_or_ne c l2 with rfl | hc2
      · rw [hn2]; omega
      · rw [hno c hc1 hc2]; exact hpos c hc
  · intro o ho
    rcases eq_or_ne o obs with rfl | hoo
    · rw [hi1, hi2]
      exact ⟨hl2, hl1, hne⟩
    · have e1 : (transferPoint ndim data s obs l1 l2).ic1 o = s.ic1 o := by
        simp [transferPoint, Function.update_noteq hoo]
      have e2 : (transferPoint ndim data s obs l1 l2).ic2 o = s.ic2 o := by
        simp [transferPoint, Function.update_noteq hoo]
      rw [e1, e2]
      exact hic o ho

theorem otsCandidate_bound (ndim k obs : ℕ) (data : ℕ → ℕ → ℝ)
    (s0 : HWState) (l1 ll : ℕ) (hll : ll < k) (hne : ll ≠ l1) :
    (otsCandidate ndim k obs data s0 l1 ll).1 < k
    ∧ (otsCandidate ndim k obs data s0 l1 ll).1 ≠ l1 := by
  rw [otsCandidate]
  refine foldl_preserve _ (fun (a : ℕ × ℝ) => a.1 < k ∧ a.1 ≠ l1) _ _
    ⟨hll, hne⟩ ?_
  intro cen acc hcen hPa
  by_cases hskip : ((obs : ℤ) ≥ s0.live l1 ∧ (obs : ℤ) ≥ s0.live cen)
      ∨ cen = l1 ∨ cen = ll
  · rw [if_pos hskip]; exact hPa
  · rw [if_neg hskip]
    push_neg at hskip
    split_ifs
    · exact ⟨List.mem_range.mp hcen, hskip.2.1⟩
    · exact hPa

theorem optimalTransferStep_inv (ndim nobs k : ℕ) (data : ℕ → ℕ → ℝ)
    (s : HWState) (obs : ℕ) (hobs : obs < nobs) (hInv : HWInv nobs k s) :
    HWInv nobs k (optimalTransferStep ndim nobs k data s obs) := by
  obtain ⟨hsum, hpos, hic⟩ := hInv
  have htrip := hic obs hobs
  rw [optimalTransferStep]
  by_cases hg : s.nc (s.ic1 obs) ≠ 1
  · rw [if_pos hg]
    simp only []
    set s0 := (if s.ncp (s.ic1 obs) ≠ 1 then
        { s with d := Function.update s.d obs
                  (rawDistance ndim (data obs) (s.centers (s.ic1 obs))
                    * s.an1 (s.ic1 obs)) }
      else s) with hs0
    have hs0nc : s0.nc = s.nc := by rw [hs0]; split_ifs <;> rfl
    have hs0ic1 : s0.ic1 = s.ic1 := by rw [hs0]; split_ifs <;> rfl
    have hs0ic2 : s0.ic2 = s.ic2 := by rw [hs0]; split_ifs <;> rfl
    have hP := otsCandidate_bound ndim k obs data s0 (s.ic1 obs) (s0.ic2 obs)
      (by rw [hs0ic2]; exact htrip.2.1) (by rw [hs0ic2]; exact Ne.symm htrip.2.2)
    by_cases hfar : (otsCandidate ndim k obs data s0 (s.ic1 obs) (s0.ic2 obs)).2
        ≥ s0.d obs
    · rw [if_pos hfar]
      refine ⟨?_, ?_, ?_⟩
      · show (∑ c ∈ Finset.range k, s0.nc c) = nobs
        rw [hs0nc]; exact hsum
      · show ∀ c, c < k → 1 ≤ s0.nc c
        rw [hs0nc]; exact hpos
      · intro o ho
        show s0.ic1 o < k ∧ Function.update s0.ic2 obs
            (otsCandidate ndim k obs data s0 (s.ic1 obs) (s0.ic2 obs)).1 o < k
          ∧ s0.ic1 o ≠ Function.update s0.ic2 obs
            (otsCandidate ndim k obs data s0 (s.ic1 obs) (s0.ic2 obs)).1 o
        rcases eq_or_ne o obs with rfl | hoo
        · rw [Function.update_same, hs0ic1]
          exact ⟨htrip.1, hP.1, Ne.symm hP.2⟩
        · rw [Function.update_noteq hoo, hs0ic1, hs0ic2]
          exact hic o ho
    · rw [if_neg hfar]
      have h2 : 2 ≤ s.nc (s.ic1 obs) := by
        have := hpos _ htrip.1
        omega
      refine (transferPoint_inv ndim nobs k data _ obs (s.ic1 obs)
        (otsCandidate ndim k obs data s0 (s.ic1 obs) (s0.ic2 obs)).1
        ⟨?_, ?_, ?_⟩ hobs htrip.1 hP.1 hP.2 ?_).1
      · show (∑ c ∈ Finset.range k, s0.nc c) = nobs
        rw [hs0nc]; exact hsum
      · show ∀ c, c < k → 1 ≤ s0.nc c
        rw [hs0nc]; exact hpos
      · intro o ho
        show s0.ic1 o < k ∧ s0.ic2 o < k ∧ s0.ic1 o ≠ s0.ic2 o
        rw [hs0ic1, hs0ic2]; exact hic o ho
      · show 2 ≤ s0.nc (s.ic1 obs)
        rw [hs0nc]; exact h2
  · rw [if_neg hg]
    exact ⟨hsum, hpos, hic⟩

theorem optimalTransferGo_inv (ndim nobs k : ℕ) (data : ℕ → ℕ → ℝ) :
    ∀ (l : List ℕ) (s : HWState), (∀ o ∈ l, o < nobs) → HWInv nobs k s →
      HWInv nobs k (optimalTransferGo ndim nobs k data l s)
  | [], s, _, hInv => by
    rw [optimalTransferGo]
    exact hInv
  | obs :: rest, s, hmem, hInv => by
    rw [optimalTransferGo]
    have hs1 : HWInv nobs k (optimalTransferStep ndim nobs k data
        { s with indx := s.indx + 1 } obs) :=
      optimalTransferStep_inv ndim nobs k data _ obs
        (hmem obs (List.mem_cons_self obs rest)) hInv
    split_ifs
    · exact hs1
    · exact optimalTransferGo_inv ndim nobs k data rest _
        (fun o ho => hmem o (List.mem_cons_of_mem _ ho)) hs1

theorem optimalTransfer_inv (ndim nobs k : ℕ) (data : ℕ → ℕ → ℝ)
    (s : HWState) (hInv : HWInv nobs k s) :
    HWInv nobs k (optimalTransfer ndim nobs k data s) := by
  rw [optimalTransfer]
  exact optimalTransferGo_inv ndim nobs k data (List.range nobs) _
    (fun o ho => List.mem_range.mp ho) hInv

theorem quickTransferStep_inv (ndim nobs k : ℕ) (data : ℕ → ℕ → ℝ)
    (istep : ℤ) (obs : ℕ) (s : HWState)
    (hobs : obs < nobs) (hInv : HWInv nobs k s) :
    HWInv nobs k (quickTransferStep ndim nobs data istep obs s).1 := by
  obtain ⟨hsum, hpos, hic⟩ := hInv
  have htrip := hic obs hobs
  rw [quickTransferStep]
  by_cases hg : s.nc (s.ic1 obs) ≠ 1
  · rw [if_pos hg]
    simp only []
    set s0 := (if s.ncp (s.ic1 obs) ≥ istep + 2 then
        { s with d := Function.update s.d obs
                  (rawDistance ndim (data obs) (s.centers (s.ic1 obs))
                    * s.an1 (s.ic1 obs)) }
      else s) with hs0
    have hs0nc : s0.nc = s.nc := by rw [hs0]; split_ifs <;> rfl
    have hs0ic1 : s0.ic1 = s.ic1 := by rw [hs0]; split_ifs <;> rfl
    have hs0ic2 : s0.ic2 = s.ic2 := by rw [hs0]; split_ifs <;> rfl
    have hInv0 : HWInv nobs k s0 :=
      ⟨by rw [show s0.nc = s.nc from hs0nc]; exact hsum,
        by rw [show s0.nc = s.nc from hs0nc]; exact hpos,
        by rw [hs0ic1, hs0ic2]; exact hic⟩
    split_ifs with hgate htest
    · show HWInv nobs k (transferPoint ndim data _ obs (s.ic1 obs) (s0.ic2 obs))
      have h2 : 2 ≤ s.nc (s.ic1 obs) := by
        have := hpos _ htrip.1
        omega
      refine (transferPoint_inv ndim nobs k data _ obs (s.ic1 obs) (s0.ic2 obs)
        ⟨?_, ?_, ?_⟩ hobs htrip.1 ?_ ?_ ?_).1
      · show (∑ c ∈ Finset.range k, s0.nc c) = nobs
        rw [hs0nc]; exact hsum
      · show ∀ c, c < k → 1 ≤ s0.nc c
        rw [hs0nc]; exact hpos
      · intro o ho
        show s0.ic1 o < k ∧ s0.ic2 o < k ∧ s0.ic1 o ≠ s0.ic2 o
        rw [hs0ic1, hs0ic2]; exact hic o ho
      · rw [hs0ic2]; exact htrip.2.1
      · rw [hs0ic2]; exact Ne.symm htrip.2.2
      · show 2 ≤ s0.nc (s.ic1 obs)
        rw [hs0nc]; exact h2
    · exact hInv0
    · exact hInv0
  · rw [if_neg hg]
    exact ⟨hsum, hpos, hic⟩

theorem quickTransfer_inv_aux (ndim nobs k : ℕ) (data : ℕ → ℕ → ℝ)
    (hn : 0 < nobs) :
    ∀ (n : ℕ) (obs icoun : ℕ) (istep imaxqtr : ℤ) (s : HWState),
      (imaxqtr - istep).toNat ≤ n → obs < nobs → HWInv nobs k s →
      HWInv nobs k (quickTransfer ndim nobs data obs icoun istep imaxqtr s).1 := by
  intro n
  induction n with
  | zero =>
    intro obs icoun istep imaxqtr s hmeas hobs hInv
    rw [quickTransfer]
    have hr : HWInv nobs k (quickTransferStep ndim nobs data istep obs s).1 :=
      quickTransferStep_inv ndim nobs k data istep obs s hobs hInv
    by_cases hc : (if (quickTransferStep ndim nobs data istep obs s).2 then 0
        else icoun + 1) = nobs
    · rw [if_pos hc]; exact hr
    · rw [if_neg hc]
      by_cases hb : istep + 1 ≥ imaxqtr
      · rw [if_pos hb]; exact hr
      · exfalso
        simp only [not_le] at hb
        omega
  | succ m ih =>
    intro obs icoun istep imaxqtr s hmeas hobs hInv
    rw [quickTransfer]
    have hr : HWInv nobs k (quickTransferStep ndim nobs data istep obs s).1 :=
      quickTransferStep_inv ndim nobs k data istep obs s hobs hInv
    by_cases hc : (if (quickTransferStep ndim nobs data istep obs s).2 then 0
        else icoun + 1) = nobs
    · rw [if_pos hc]; exact hr
    · rw [if_neg hc]
      by_cases hb : istep + 1 ≥ imaxqtr
      · rw [if_pos hb]; exact hr
      · rw [if_neg hb]
        refine ih _ _ _ _ _ ?_ ?_ hr
        · simp only [not_le] at hb
          omega
        · split_ifs <;> omega

theorem quickTransfer_inv (ndim nobs k : ℕ) (data : ℕ → ℕ → ℝ)
    (hn : 0 < nobs) (obs icoun : ℕ) (istep imaxqtr : ℤ) (s : HWState)
    (hobs : obs < nobs) (hInv : HWInv nobs k s) :
    HWInv nobs k (quickTransfer ndim nobs data obs icoun istep imaxqtr s).1 :=
  quickTransfer_inv_aux ndim nobs k data hn ((imaxqtr - istep).toNat)
    obs icoun istep imaxqtr s le_rfl hobs hInv

theorem seedFold_bound (k : ℕ) (g : ℕ → ℝ) :
    ∀ (l : List ℕ) (acc : (ℕ × ℝ) × (ℕ × ℝ)),
      (∀ x ∈ l, x < k) → l.Nodup →
      acc.1.1 ∉ l → acc.2.1 ∉ l →
      acc.1.1 < k → acc.2.1 < k → acc.1.1 ≠ acc.2.1 →
      ((l.foldl (fun (acc : (ℕ × ℝ) × (ℕ × ℝ)) cen =>
          if g cen < acc.2.2 then
            if g cen < acc.1.2 then ((cen, g cen), acc.1)
            else (acc.1, (cen, g cen))
          else acc) acc).1.1 < k
        ∧ (l.foldl (fun (acc : (ℕ × ℝ) × (ℕ × ℝ)) cen =>
          if g cen < acc.2.2 then
            if g cen < acc.1.2 then ((cen, g cen), acc.1)
            else (acc.1, (cen, g cen))
          else acc) acc).2.1 < k
        ∧ (l.foldl (fun (acc : (ℕ × ℝ) × (ℕ × ℝ)) cen =>
          if g cen < acc.2.2 then
            if g cen < acc.1.2 then ((cen, g cen), acc.1)
            else (acc.1, (cen, g cen))
          else acc) acc).1.1
          ≠ (l.foldl (fun (acc : (ℕ × ℝ) × (ℕ × ℝ)) cen =>
          if g cen < acc.2.2 then
            if g cen < acc.1.2 then ((cen, g cen), acc.1)
            else (acc.1, (cen, g cen))
          else acc) acc).2.1)
  | [], acc, _, _, _, _, h1, h2, h3 => ⟨h1, h2, h3⟩
  | cen :: rest, acc, hmem, hnd, hn1, hn2, h1, h2, h3 => by
    rw [List.foldl_cons]
    have hck : cen < k := hmem cen (List.mem_cons_self cen rest)
    have hcrest : cen ∉ rest := (List.nodup_cons.mp hnd).1
    have hndr : rest.Nodup := (List.nodup_cons.mp hnd).2
    have hmemr : ∀ x ∈ rest, x < k :=
      fun x hx => hmem x (List.mem_cons_of_mem _ hx)
    have hn1r : acc.1.1 ∉ rest := fun h => hn1 (List.mem_cons_of_mem _ h)
    have hn2r : acc.2.1 ∉ rest := fun h => hn2 (List.mem_cons_of_mem _ h)
    have hne1 : acc.1.1 ≠ cen := fun h => hn1 (h ▸ List.mem_cons_self cen rest)
    have hne2 : acc.2.1 ≠ cen := fun h => hn2 (h ▸ List.mem_cons_self cen rest)
    by_cases hd2 : g cen < acc.2.2
    · rw [if_pos hd2]
      by_cases hd1 : g cen < acc.1.2
      · rw [if_pos hd1]
        exact seedFold_bound k g rest ((cen, g cen), acc.1) hmemr hndr
          hcrest hn1r hck h1 (Ne.symm hne1)
      · rw [if_neg hd1]
        exact seedFold_bound k g rest (acc.1, (cen, g cen)) hmemr hndr
          hn1r hcrest h1 hck hne1
    · rw [if_neg hd2]
      exact seedFold_bound k g rest acc hmemr hndr hn1r hn2r h1 h2 h3

theorem hwSeedPair_bound (ndim k : ℕ) (data centers : ℕ → ℕ → ℝ)
    (obs : ℕ) (hk : 2 ≤ k) :
    (hwSeedPair ndim k data centers obs).1 < k
    ∧ (hwSeedPair ndim k data centers obs).2 < k
    ∧ (hwSeedPair ndim k data centers obs).1
      ≠ (hwSeedPair ndim k data centers obs).2 := by
  have hinit1 : (hwSeedInit ndim data centers obs).1.1 < k := by
    rw [hwSeedInit]; split_ifs <;> · simp only []; omega
  have hinit2 : (hwSeedInit ndim data centers obs).2.1 < k := by
    rw [hwSeedInit]; split_ifs <;> · simp only []; omega
  have hinitne : (hwSeedInit ndim data centers obs).1.1
      ≠ (hwSeedInit ndim data centers obs).2.1 := by
    rw [hwSeedInit]; split_ifs <;> simp
  have hinitm1 : (hwSeedInit ndim data centers obs).1.1 ∉ List.range' 2 (k - 2) := by
    intro h
    have := (List.mem_range'_1.mp h).1
    rw [hwSeedInit] at this
    split_ifs at this <;> simp at this
  have hinitm2 : (hwSeedInit ndim data centers obs).2.1 ∉ List.range' 2 (k - 2) := by
    intro h
    have := (List.mem_range'_1.mp h).1
    rw [hwSeedInit] at this
    split_ifs at this <;> simp at this
  have hmem : ∀ x ∈ List.range' 2 (k - 2), x < k := by
    intro x hx
    have := (List.mem_range'_1.mp hx).2
    omega
  have := seedFold_bound k
    (fun cen => rawDistance ndim (data obs) (centers cen))
    (List.range' 2 (k - 2)) (hwSeedInit ndim data centers obs)
    hmem (List.nodup_range' 2 (k - 2)) hinitm1 hinitm2 hinit1 hinit2 hinitne
  rw [hwSeedPair]
  exact this

theorem hwNc_sum (k nobs : ℕ) (ic1 : ℕ → ℕ)
    (hb : ∀ o, o < nobs → ic1 o < k) :
    (∑ c ∈ Finset.range k, hwNc nobs ic1 c) = nobs := by
  have hbr : ∀ c, hwNc nobs ic1 c
      = ((Finset.range nobs).filter (fun o => ic1 o = c)).card := fun c => rfl
  calc (∑ c ∈ Finset.range k, hwNc nobs ic1 c)
      = ∑ c ∈ Finset.range k,
          ((Finset.range nobs).filter (fun o => ic1 o = c)).card :=
        Finset.sum_congr rfl (fun c _ => hbr c)
    _ = (Finset.range nobs).card :=
        (Finset.card_eq_sum_card_fiberwise (fun o ho =>
          Finset.mem_range.mpr (hb o (Finset.mem_range.mp ho)))).symm
    _ = nobs := Finset.card_range nobs

/-- **C9**: after a setup phase that finds no empty cluster, the
HartiganWong invariant holds and is preserved by both transfer stages.
Concretely: (a) the seeded state — `ic1`/`ic2` from the two-nearest scan,
`nc` tallied from `ic1` — satisfies `HWInv` (sizes sum to `nobs`, every
cluster non-empty, assignments in-range and distinct); (b) `transfer_point`
under the `nc[l1] != 1` guard keeps the invariant, decrements the source
size, keeps it at least 1, increments the destination size, keeps the sizes
summing to `nobs`, and sets `ic1[obs] = l2`, `ic2[obs] = l1`; (c) the
optimal-transfer pass preserves the invariant; (d) the quick-transfer stage
preserves the invariant. -/
theorem hw_transfer_invariants (ndim nobs k : ℕ) (data : ℕ → ℕ → ℝ)
    (hk : 2 ≤ k) (hn : 0 < nobs) :
    (∀ (centers : ℕ → ℕ → ℝ) (clusters : ℕ → ℕ) (s : HWState),
      s.ic1 = hwIc1 ndim k nobs data centers clusters →
      s.ic2 = hwIc2 ndim k data centers →
      s.nc = hwNc nobs (hwIc1 ndim k nobs data centers clusters) →
      (¬ ∃ c, c < k
        ∧ hwNc nobs (hwIc1 ndim k nobs data centers clusters) c = 0) →
      HWInv nobs k s)
    ∧ (∀ (s : HWState) (obs l2 : ℕ), HWInv nobs k s → obs < nobs →
        l2 < k → l2 ≠ s.ic1 obs → s.nc (s.ic1 obs) ≠ 1 →
        HWInv nobs k (transferPoint ndim data s obs (s.ic1 obs) l2)
        ∧ (transferPoint ndim data s obs (s.ic1 obs) l2).nc (s.ic1 obs)
          = s.nc (s.ic1 obs) - 1
        ∧ 1 ≤ (transferPoint ndim data s obs (s.ic1 obs) l2).nc (s.ic1 obs)
        ∧ (transferPoint ndim data s obs (s.ic1 obs) l2).nc l2 = s.nc l2 + 1
        ∧ (∑ c ∈ Finset.range k,
            (transferPoint ndim data s obs (s.ic1 obs) l2).nc c) = nobs
        ∧ (transferPoint ndim data s obs (s.ic1 obs) l2).ic1 obs = l2
        ∧ (transferPoint ndim data s obs (s.ic1 obs) l2).ic2 obs = s.ic1 obs)
    ∧ (∀ s : HWState, HWInv nobs k s →
        HWInv nobs k (optimalTransfer ndim nobs k data s))
    ∧ (∀ (s : HWState) (icoun : ℕ) (istep imaxqtr : ℤ), HWInv nobs k s →
        HWInv nobs k (quickTransfer ndim nobs data 0 icoun istep imaxqtr s).1) := by
  refine ⟨?_, ?_, ?_, ?_⟩
  · intro centers clusters s h1 h2 h3 hne
    have hb : ∀ o, o < nobs →
        hwIc1 ndim k nobs data centers clusters o < k := by
      intro o ho
      rw [hwIc1, if_pos ho]
      exact (hwSeedPair_bound ndim k data centers o hk).1
    refine ⟨?_, ?_, ?_⟩
    · rw [h3]
      exact hwNc_sum k nobs _ hb
    · intro c hc
      rw [h3]
      rcases Nat.eq_zero_or_pos (hwNc nobs
        (hwIc1 ndim k nobs data centers clusters) c) with hz | hp
      · exact absurd ⟨c, hc, hz⟩ hne
      · exact hp
    · intro o ho
      rw [h1, h2, hwIc1, if_pos ho, hwIc2]
      exact hwSeedPair_bound ndim k data centers o hk
  · intro s obs l2 hInv hobs hl2 hne hg
    have hl1 : s.ic1 obs < k := (hInv.2.2 obs hobs).1
    have h2 : 2 ≤ s.nc (s.ic1 obs) := by
      have := hInv.2.1 _ hl1
      omega
    obtain ⟨hI, hn1, hn2, hi1, hi2⟩ :=
      transferPoint_inv ndim nobs k data s obs (s.ic1 obs) l2 hInv hobs
        hl1 hl2 hne h2
    exact ⟨hI, hn1, by rw [hn1]; omega, hn2, hI.1, hi1, hi2⟩
  · intro s hInv
    exact optimalTransfer_inv ndim nobs k data s hInv
  · intro s icoun istep imaxqtr hInv
    exact quickTransfer_inv ndim nobs k data hn 0 icoun istep imaxqtr s hn hInv

theorem hwWState_inv : HWInv 3 2 hwWState :=
  ⟨by decide, by decide, by decide⟩

/-- Witness for **C9** at a concrete state and transfer. -/
theorem hw_transfer_invariants_witness :
    (HWInv 3 2 (optimalTransfer 1 3 2 hwWData hwWState)
      ∧ HWInv 3 2 (quickTransfer 1 3 hwWData 0 0 0 150 hwWState).1)
    ∧ (transferPoint 1 hwWData hwWState 1 (hwWState.ic1 1) 0).nc
        (hwWState.ic1 1) = hwWState.nc (hwWState.ic1 1) - 1
    ∧ (transferPoint 1 hwWData hwWState 1 (hwWState.ic1 1) 0).ic1 1 = 0 := by
  have h := hw_transfer_invariants 1 3 2 hwWData (by decide) (by decide)
  have ht := h.2.1 hwWState 1 0 hwWState_inv (by decide) (by decide)
    (by decide) (by decide)
  exact ⟨⟨h.2.2.1 hwWState hwWState_inv,
      h.2.2.2 hwWState 0 0 150 hwWState_inv⟩,
    ht.2.1, ht.2.2.2.2.2.1⟩

theorem weightedSample_spec (cumulative : List ℝ) (mindist : ℕ → ℝ)
    (nobs : ℕ) (us : ℕ → ℝ) :
    ∀ (fuel pos cid pos' : ℕ),
      weightedSample cumulative mindist nobs us fuel pos = some (cid, pos') →
      cid ≤ cumulative.length ∧ cid ≠ nobs ∧ mindist cid ≠ 0
  | 0, pos, cid, pos', h => by
    rw [weightedSample] at h
    exact absurd h (by simp)
  | fuel + 1, pos, cid, pos', h => by
    rw [weightedSample] at h
    by_cases hrej : cumulative.findIdx
        (fun x => decide (¬ x < cumulative.getLast?.getD 0 * us pos)) = nobs
      ∨ mindist (cumulative.findIdx
        (fun x => decide (¬ x < cumulative.getLast?.getD 0 * us pos))) = 0
    · rw [if_pos hrej] at h
      exact weightedSample_spec cumulative mindist nobs us fuel (pos + 1)
        cid pos' h
    · rw [if_neg hrej] at h
      rcases not_or.mp hrej with ⟨hne, hmz⟩
      have hp := Option.some.inj h
      have hcid := congrArg Prod.fst hp
      simp only [] at hcid
      subst hcid
      exact ⟨List.findIdx_le_length _, hne, hmz⟩

theorem kppUpdatedMindist_zero (ndim nobs : ℕ) (data : ℕ → ℕ → ℝ)
    (cen : ℕ) (sofar : List ℕ) (mindist : ℕ → ℝ) (i : ℕ)
    (hz : mindist i = 0) :
    kppUpdatedMindist ndim nobs data cen sofar mindist i = 0 := by
  rcases hL : sofar.getLast? with _ | last
  · simp [kppUpdatedMindist, hL, hz]
  · simp [kppUpdatedMindist, hL, kppMindistUpdate, hz]

theorem kppLoop_distinct (ndim nobs : ℕ) (data : ℕ → ℕ → ℝ) (us : ℕ → ℝ)
    (fuel : ℕ) :
    ∀ (rem cen : ℕ) (mindist : ℕ → ℝ) (sofar : List ℕ) (pos : ℕ)
      (res : List ℕ),
      (∀ i ∈ sofar, mindist i = 0) → sofar.Nodup →
      (∀ i ∈ sofar, i < nobs) →
      kppLoop ndim nobs data us fuel rem cen mindist sofar pos = some res →
      res.Nodup ∧ (∀ i ∈ res, i < nobs)
      ∧ res.length ≤ sofar.length + rem
  | 0, cen, mindist, sofar, pos, res, hz, hnd, hb, h => by
    rw [kppLoop] at h
    obtain rfl := Option.some.inj h
    exact ⟨hnd, hb, by omega⟩
  | rem + 1, cen, mindist, sofar, pos, res, hz, hnd, hb, h => by
    rw [kppLoop] at h
    by_cases htot : (kppCumulative nobs
        (kppUpdatedMindist ndim nobs data cen sofar mindist)).getLast?.getD 0 = 0
    · rw [if_pos htot] at h
      obtain rfl := Option.some.inj h
      exact ⟨hnd, hb, by omega⟩
    · rw [if_neg htot] at h
      revert h
      match hws : weightedSample (kppCumulative nobs
          (kppUpdatedMindist ndim nobs data cen sofar mindist))
          (kppUpdatedMindist ndim nobs data cen sofar mindist) nobs us fuel pos with
      | none => intro h; exact absurd h (by simp)
      | some (cid, pos') =>
        intro h
        obtain ⟨hle, hne, hmz⟩ := weightedSample_spec _ _ _ _ _ _ _ _ hws
        have hlen : (kppCumulative nobs
            (kppUpdatedMindist ndim nobs data cen sofar mindist)).length = nobs := by
          rw [kppCumulative]
          simp
        have hcid : cid < nobs := by
          rw [hlen] at hle
          omega
        have hzup : ∀ i ∈ sofar,
            kppUpdatedMindist ndim nobs data cen sofar mindist i = 0 :=
          fun i hi => kppUpdatedMindist_zero ndim nobs data cen sofar mindist i
            (hz i hi)
        have hnotin : cid ∉ sofar := fun hmem => hmz (hzup cid hmem)
        have hzs : ∀ i ∈ sofar ++ [cid], Function.update
            (kppUpdatedMindist ndim nobs data cen sofar mindist) cid 0 i = 0 := by
          intro i hi
          rcases List.mem_append.mp hi with hi | hi
          · rcases eq_or_ne i cid with rfl | hic
            · exact Function.update_same ..
            · rw [Function.update_noteq hic]
              exact hzup i hi
          · obtain rfl := List.mem_singleton.mp hi
            exact Function.update_same ..
        have hnds : (sofar ++ [cid]).Nodup := by
          simp [List.nodup_append, hnd, hnotin]
        have hbs : ∀ i ∈ sofar ++ [cid], i < nobs := by
          intro i hi
          rcases List.mem_append.mp hi with hi | hi
          · exact hb i hi
          · obtain rfl := List.mem_singleton.mp hi
            exact hcid
        obtain ⟨hr1, hr2, hr3⟩ := kppLoop_distinct ndim nobs data us fuel rem
          (cen + 1) _ _ pos' res hzs hnds hbs h
        refine ⟨hr1, hr2, ?_⟩
        simp only [List.length_append, List.length_singleton] at hr3
        omega

theorem kppCumulative_last (nobs : ℕ) (m : ℕ → ℝ) (hn : 1 ≤ nobs) :
    (kppCumulative nobs m).getLast?.getD 0 = ∑ j ∈ Finset.range nobs, m j := by
  obtain ⟨n, rfl⟩ : ∃ n, nobs = n + 1 := ⟨nobs - 1, by omega⟩
  rw [kppCumulative, List.range_succ, List.map_append, List.map_singleton,
    List.getLast?_concat]
  rfl

/-- **C7**: in the k-means++ selection loop, (a) a step whose refreshed
weights sum to zero (all remaining points duplicate a chosen one) stops
early, returning exactly the centers chosen so far — in particular fewer
than `ncenters` when iterations remained; and (b) every successful
selection returns distinct in-range observation indices, at most `ncenters`
of them: an already-chosen point keeps weight zero and the weighted sampler
rejects zero-weight indices. -/
theorem kpp_early_stop_and_distinct (ndim nobs : ℕ) (data : ℕ → ℕ → ℝ)
    (us : ℕ → ℝ) (fuel : ℕ) (hn : 1 ≤ nobs) :
    (∀ (rem cen : ℕ) (mindist : ℕ → ℝ) (sofar : List ℕ) (pos : ℕ),
      (∑ j ∈ Finset.range nobs,
        kppUpdatedMindist ndim nobs data cen sofar mindist j) = 0 →
      kppLoop ndim nobs data us fuel (rem + 1) cen mindist sofar pos
        = some sofar)
    ∧ (∀ (ncenters : ℤ) (sofar : List ℕ),
        kppSelect ndim nobs data ncenters us fuel = some sofar →
        sofar.Nodup ∧ (∀ i ∈ sofar, i < nobs)
          ∧ sofar.length ≤ ncenters.toNat) := by
  constructor
  · intro rem cen mindist sofar pos htot
    rw [kppLoop]
    have hc : (kppCumulative nobs
        (kppUpdatedMindist ndim nobs data cen sofar mindist)).getLast?.getD 0
        = 0 := by
      rw [kppCumulative_last nobs _ hn]
      exact htot
    rw [if_pos hc]
  · intro ncenters sofar h
    rw [kppSelect] at h
    have := kppLoop_distinct ndim nobs data us fuel ncenters.toNat 0
      (fun _ => 1) [] 0 sofar (by simp) (by simp) (by simp) h
    simpa using this

/-- Witness for **C7**: with all-zero weights left (every remaining point a
duplicate), the loop with one chosen center and iterations remaining
returns just that center. -/
theorem kpp_early_stop_and_distinct_witness :
    kppLoop 1 3 (fun _ _ => (0 : ℝ)) (fun _ => 0) 10 1 1 (fun _ => 0) [0] 5
      = some [0] :=
  (kpp_early_stop_and_distinct 1 3 (fun _ _ => 0) (fun _ => 0) 10
    (by decide)).1 0 1 (fun _ => 0) [0] 5
    (by simp [kppUpdatedMindist, kppMindistUpdate])

theorem copyIntoArray_nil {α : Type} [LinearOrderedField α] (ndim : ℕ)
    (data centers : ℕ → ℕ → α) :
    copyIntoArray ndim [] data centers = centers := by
  funext c d
  simp [copyIntoArray]

/-- C8 counterexample: `InitializeNone::run` with `nobs = 0` and
`ncenters = -1` returns `min(0, -1) = -1`, not `0`. -/
theorem noInit_nobs_zero_negative :
    noInitRun 0 (-1) = -1 ∧ (-1 : ℤ) ≠ 0 := by
  constructor
  · rw [noInitRun]
    decide
  · decide

/-- **C8** (amended): with `nobs = 0`, RandomSample, KmeansPlusPlus and
PCAPartition each return 0 filled centers with untouched buffers;
NoInit returns `min(0, ncenters)`, which is 0 only when `ncenters ≥ 0` and
is the negative `ncenters` itself otherwise (it never touches buffers). -/
theorem initializers_nobs_zero (ndim : ℕ) (data : ℕ → ℕ → ℝ) (ncenters : ℤ)
    (centers : ℕ → ℕ → ℝ) (clusters : ℕ → ℕ) (us : ℕ → ℝ) (fuel : ℕ) :
    (0 ≤ ncenters → noInitRun 0 ncenters = 0)
    ∧ (ncenters < 0 → noInitRun 0 ncenters = ncenters)
    ∧ randomInitRun ndim 0 data ncenters centers us = some (0, centers)
    ∧ kppRun ndim 0 data ncenters centers us fuel = some (0, centers)
    ∧ (∀ body, pcaPartitionRun 0 centers clusters body
        = (0, centers, clusters)) := by
  refine ⟨?_, ?_, ?_, ?_, ?_⟩
  · intro h
    rw [noInitRun]
    omega
  · intro h
    rw [noInitRun]
    omega
  · rw [randomInitRun]
    have hs : sampleWithoutReplacement 0 ncenters us 0 = some ([], 0) := by
      rw [sampleWithoutReplacement]
      simp
    rw [hs]
    simp [copyIntoArray_nil]
  · rw [kppRun, if_pos rfl]
  · intro body
    rw [pcaPartitionRun, if_pos rfl]

/-- Witness for the amended C8 theorem at concrete inputs. -/
theorem initializers_nobs_zero_witness :
    noInitRun 0 2 = 0
    ∧ noInitRun 0 (-3) = -3
    ∧ randomInitRun 1 0 (fun _ _ => (0 : ℝ)) 2 (fun _ _ => 0) (fun _ => 0)
      = some (0, fun _ _ => 0)
    ∧ kppRun 1 0 (fun _ _ => (0 : ℝ)) 2 (fun _ _ => 0) (fun _ => 0) 5
      = some (0, fun _ _ => 0)
    ∧ pcaPartitionRun 0 (fun _ _ => (0 : ℝ)) (fun _ => 0)
        (7, (fun _ _ => 1), (fun _ => 1))
      = (0, fun _ _ => 0, fun _ => 0) := by
  have h := initializers_nobs_zero 1 (fun _ _ => 0) 2 (fun _ _ => 0)
    (fun _ => 0) (fun _ => 0) 5
  have h2 := initializers_nobs_zero 1 (fun _ _ => 0) (-3) (fun _ _ => 0)
    (fun _ => 0) (fun _ => 0) 5
  exact ⟨h.1 (by decide), h2.2.1 (by decide), h.2.2.1, h.2.2.2.1,
    h.2.2.2.2 _⟩

theorem mbEx_sample (pos : ℕ) :
    sampleWithoutReplacement 4 2 (fun _ => 0) pos = some ([0, 1], pos + 2) := by
  rw [sampleWithoutReplacement]
  have hc : ((2 : ℤ) % (2 : ℤ) ^ 64).toNat = 2 := by decide
  simp only [hc]
  rw [if_neg (by norm_num)]
  rw [show (4 + 2 + 1 : ℕ) = 6 + 1 from rfl, swrLoop]
  rw [if_pos (by norm_num), if_pos (by norm_num)]
  rw [show (6 : ℕ) = 5 + 1 from rfl, swrLoop]
  rw [if_pos (by norm_num), if_pos (by norm_num)]
  rw [show (5 : ℕ) = 4 + 1 from rfl, swrLoop]
  rw [if_neg (by norm_num)]
  norm_num

theorem mbEx_findA (o : ℕ) (ho : o < 2) :
    qsFind 1 mbExCenters
      (quickSearchTree 1 2 mbExCenters mtNext (mt19937Init 1234567890))
      (mbExData o) = mbExClusters o := by
  apply qsFind_forced 1 2 mbExCenters mtNext (mt19937Init 1234567890)
    (mbExData o) (mbExClusters o) (by interval_cases o <;> decide)
  · intro i hi hne
    interval_cases o <;> interval_cases i <;> simp_all [mbExClusters] <;>
      · rw [qsDist, qsDist]
        apply Real.sqrt_lt_sqrt <;>
          norm_num [rawDistance, mbExCenters, mbExData, Finset.sum_range_one]
  · intro i hi
    have hMax : (0 : ℝ) < dblMax := by norm_num [dblMax]
    interval_cases o <;> interval_cases i <;>
      · rw [qsDist, Real.sqrt_lt' hMax]
        norm_num [rawDistance, mbExCenters, mbExData, dblMax,
          Finset.sum_range_one]

theorem mbEx_findB (o : ℕ) (ho : o < 4) :
    qsFind 1 mbExCen1
      (quickSearchTree 1 2 mbExCen1 mtNext (mt19937Init 1234567890))
      (mbExData o) = mbExClustersF o := by
  apply qsFind_forced 1 2 mbExCen1 mtNext (mt19937Init 1234567890)
    (mbExData o) (mbExClustersF o) (by interval_cases o <;> decide)
  · intro i hi hne
    interval_cases o <;> interval_cases i <;>
      simp_all [mbExClustersF, mbExClusters] <;>
      · rw [qsDist, qsDist]
        apply Real.sqrt_lt_sqrt <;>
          norm_num [rawDistance, mbExCen1, mbExCenters, mbExData,
            Finset.sum_range_one]
  · intro i hi
    have hMax : (0 : ℝ) < dblMax := by norm_num [dblMax]
    interval_cases o <;> interval_cases i <;>
      · rw [qsDist, Real.sqrt_lt' hMax]
        norm_num [rawDistance, mbExCen1, mbExCenters, mbExData, dblMax,
          Finset.sum_range_one]

theorem mbEx_bump0 : bump (bump (fun _ => (0 : ℕ)) 0) 1 = mbExTs 1 := by
  funext x
  simp only [bump, mbExTs]
  split_ifs <;> omega

theorem mbEx_bump2 (n : ℕ) : bump (bump (mbExTs n) 0) 1 = mbExTs (n + 1) := by
  funext x
  simp only [bump, mbExTs]
  split_ifs <;> omega

theorem mbEx_upd1 :
    List.foldl (mbUpdateStep 1 mbExData mbExClusters)
      (fun _ => 0, mbExCenters) [0, 1] = (mbExTs 1, mbExCen1) := by
  simp only [List.foldl_cons, List.foldl_nil, mbUpdateStep]
  rw [Prod.mk.injEq]
  constructor
  · rw [show mbExClusters 0 = 0 from rfl, show mbExClusters 1 = 1 from rfl]
    exact mbEx_bump0
  · funext c d
    by_cases hc0 : c = 0 <;> by_cases hc1 : c = 1 <;> by_cases hd : d = 0 <;>
      simp_all [bump, mbExClusters, mbExCen1, mbExCenters, mbExData,
        Nat.lt_one_iff] <;> norm_num

theorem mbEx_upd_keep (n : ℕ) :
    List.foldl (mbUpdateStep 1 mbExData mbExClusters)
      (mbExTs (n + 1), mbExCen1) [0, 1] = (mbExTs (n + 2), mbExCen1) := by
  simp only [List.foldl_cons, List.foldl_nil, mbUpdateStep]
  rw [Prod.mk.injEq]
  constructor
  · rw [show mbExClusters 0 = 0 from rfl, show mbExClusters 1 = 1 from rfl]
    exact mbEx_bump2 (n + 1)
  · funext c d
    by_cases hc0 : c = 0 <;> by_cases hc1 : c = 1 <;> by_cases hd : d = 0 <;>
      simp_all [bump, mbExClusters, mbExCen1, mbExCenters, mbExData, mbExTs,
        Nat.lt_one_iff] <;> norm_num

theorem mbEx_track0 :
    List.foldl (mbTrackStep mbExPrev2 mbExClusters)
      (fun _ => 0, fun _ => 0) [0, 1] = (mbExTs 1, fun _ => 0) := by
  simp only [List.foldl_cons, List.foldl_nil, mbTrackStep]
  rw [if_neg (by simp [mbExPrev2, mbExClusters]),
    if_neg (by simp [mbExPrev2, mbExClusters])]
  rw [Prod.mk.injEq]
  constructor
  · rw [show mbExPrev2 0 = 0 from rfl, show mbExPrev2 1 = 1 from rfl]
    exact mbEx_bump0
  · rfl

theorem mbEx_track1 :
    List.foldl (mbTrackStep mbExPrev2 mbExClusters)
      (mbExTs 1, fun _ => 0) [0, 1] = (mbExTs 2, fun _ => 0) := by
  simp only [List.foldl_cons, List.foldl_nil, mbTrackStep]
  rw [if_neg (by simp [mbExPrev2, mbExClusters]),
    if_neg (by simp [mbExPrev2, mbExClusters])]
  rw [Prod.mk.injEq]
  constructor
  · rw [show mbExPrev2 0 = 0 from rfl, show mbExPrev2 1 = 1 from rfl]
    exact mbEx_bump2 1
  · rfl

end KmeansSpec

namespace KmeansSpec

theorem mbEx_loop :
    miniBatchLoop 1 4 mbExData 2 2 2 (1 / 100) (fun _ => 0) 10 1
      ⟨mbExCenters, mbExClusters, fun _ => 0, fun _ => 0, fun _ => 0,
        fun _ => 0, 0⟩
      = some (3, ⟨mbExCen1, mbExClusters, mbExPrev2, mbExTs 3, fun _ => 0,
        mbExTs 2, 6⟩) := by
  rw [show (10 : ℕ) = 9 + 1 from rfl, miniBatchLoop]
  have hclA : (fun o => if o ∈ [0, 1] then
      qsFind 1 mbExCenters (quickSearchTree 1 2 mbExCenters mtNext
        (mt19937Init 1234567890)) (mbExData o)
    else mbExClusters o) = mbExClusters := by
    funext o
    by_cases ho : o ∈ [0, 1]
    · rw [if_pos ho]
      have ho2 : o < 2 := by
        rcases List.mem_cons.mp ho with h | h
        · omega
        · simp at h
          omega
      exact mbEx_findA o ho2
    · rw [if_neg ho]
  simp only [mbEx_sample, if_true, hclA, mbEx_upd1, Nat.reduceAdd]
  have hclB : (fun o => if o ∈ [0, 1] then
      qsFind 1 mbExCen1 (quickSearchTree 1 2 mbExCen1 mtNext
        (mt19937Init 1234567890)) (mbExData o)
    else mbExClusters o) = mbExClusters := by
    funext o
    by_cases ho : o ∈ [0, 1]
    · rw [if_pos ho]
      have ho2 : o = 0 ∨ o = 1 := by
        rcases List.mem_cons.mp ho with h | h
        · exact Or.inl h
        · simp at h
          exact Or.inr h
      rw [mbEx_findB o (by omega)]
      rcases ho2 with rfl | rfl <;> rfl
    · rw [if_neg ho]
  have h21 : ¬ ((2 : ℕ) = 1) := by norm_num
  have hprevB : (fun o => if o ∈ [0, 1] then mbExClusters o else (0 : ℕ))
      = mbExPrev2 := by
    funext o
    by_cases ho : o ∈ [0, 1]
    · rw [if_pos ho]
      rcases List.mem_cons.mp ho with rfl | h
      · rfl
      · simp at h
        subst h
        rfl
    · rw [if_neg ho]
      have h0 : o ≠ 0 := by rintro rfl; exact ho (by simp)
      have h1 : o ≠ 1 := by rintro rfl; exact ho (by simp)
      simp [mbExPrev2, h1]
  have hu2 : List.foldl (mbUpdateStep 1 mbExData mbExClusters)
      (mbExTs 1, mbExCen1) [0, 1] = (mbExTs 2, mbExCen1) := by
    simpa using mbEx_upd_keep 0
  have hu3 : List.foldl (mbUpdateStep 1 mbExData mbExClusters)
      (mbExTs 2, mbExCen1) [0, 1] = (mbExTs 3, mbExCen1) := by
    simpa using mbEx_upd_keep 1
  rw [show (9 : ℕ) = 8 + 1 from rfl, miniBatchLoop]
  simp only [mbEx_sample, hclB, if_neg h21, hprevB, hu2, mbEx_track0,
    Nat.reduceAdd]
  rw [if_neg (by norm_num : ¬ ((2 : ℕ) % 2 = 1))]
  have h31 : ¬ ((3 : ℕ) = 1) := by norm_num
  have hprevC : (fun o => if o ∈ [0, 1] then mbExClusters o else mbExPrev2 o)
      = mbExPrev2 := by
    funext o
    by_cases ho : o ∈ [0, 1]
    · rw [if_pos ho]
      rcases List.mem_cons.mp ho with rfl | h
      · rfl
      · simp at h
        subst h
        rfl
    · rw [if_neg ho]
  rw [show (8 : ℕ) = 7 + 1 from rfl, miniBatchLoop]
  simp only [mbEx_sample, hclB, if_neg h31, hprevC, hu3, mbEx_track1,
    Nat.reduceAdd]
  simp only [if_true]
  rw [if_neg ?hgate]
  case hgate =>
    rintro ⟨c, hc, hge⟩
    have h2c : mbExTs 2 c = 2 := by
      rw [mbExTs]
      exact if_pos (by omega)
    rw [h2c] at hge
    norm_num at hge

/-- C5 counterexample: in the strict mini-batch regime (`batch_size = 2 <
nobs = 4`) on a genuinely converged input — every observation strictly
nearest its own in-range centroid, every centroid the exact mean of its
cluster — `MiniBatch::run` is not idempotent: the running-mean update
starts from `total_sampled = 0`, so the first batch drags each sampled
centroid onto the batch point, and the final full pass reassigns
observation 2 from cluster 0 to cluster 1; three iterations are reported
instead of one, and the returned centroid of cluster 0 is 0 instead of the
input 5. -/
theorem minibatch_regime_not_idempotent :
    ((2 : ℤ) < ((4 : ℕ) : ℤ))
    ∧ (∀ o, o < 4 → mbExClusters o < 2)
    ∧ (∀ o, o < 4 → ∀ c, c < 2 → c ≠ mbExClusters o →
        qsDist 1 (mbExCenters (mbExClusters o)) (mbExData o)
          < qsDist 1 (mbExCenters c) (mbExData o))
    ∧ (∀ c d, d < 1 →
        mbExCenters c d * (clusterCount 4 mbExClusters c : ℝ)
          = (((List.range 4).filter (fun o => mbExClusters o = c)).map
              (fun o => mbExData o d)).sum)
    ∧ ∃ det cen cl,
        miniBatchRun 10 2 2 (1 / 100) (fun _ => 0) 1 4 mbExData 2 mbExCenters
          mbExClusters = some (det, cen, cl)
        ∧ cl 2 = 1 ∧ mbExClusters 2 = 0
        ∧ det.iterations = 3 ∧ det.status = 0
        ∧ cen 0 0 = 0 ∧ mbExCenters 0 0 = 5 := by
  refine ⟨by norm_num, by decide, ?_, ?_, ?_⟩
  · intro o ho c hc hne
    interval_cases o <;> interval_cases c <;> simp_all [mbExClusters] <;>
      · rw [qsDist, qsDist]
        apply Real.sqrt_lt_sqrt <;>
          norm_num [rawDistance, mbExCenters, mbExData, Finset.sum_range_one]
  · intro c d hd
    interval_cases d
    by_cases h0 : c = 0
    · subst h0
      norm_num [mbExCenters, mbExData, mbExClusters, clusterCount,
        List.range_succ]
    · by_cases h1 : c = 1
      · subst h1
        norm_num [mbExCenters, mbExData, mbExClusters, clusterCount,
          List.range_succ]
      · have hfil : (List.range 4).filter (fun o => mbExClusters o = c)
            = [] := by
          apply List.filter_eq_nil_iff.mpr
          intro o ho
          simp only [decide_eq_true_eq]
          intro hco
          rw [List.mem_range] at ho
          interval_cases o <;> simp [mbExClusters] at hco <;> omega
        rw [show clusterCount 4 mbExClusters c
            = ((List.range 4).filter (fun o => mbExClusters o = c)).length
          from rfl]
        rw [hfil]
        simp
  · rw [miniBatchRun, show isEdgeCase 4 (2 : ℤ) = false from by decide]
    simp only [Bool.false_eq_true, if_false]
    have hmin : (2 : ℤ) ⊓ ((4 : ℕ) : ℤ) = 2 := by norm_num
    have htn : Int.toNat 2 = 2 := rfl
    simp only [hmin, htn, mbEx_loop]
    have hclFp : ∀ o, (if o < 4 then
        qsFind 1 mbExCen1 (quickSearchTree 1 2 mbExCen1 mtNext
          (mt19937Init 1234567890)) (mbExData o)
      else mbExClusters o) = mbExClustersF o := by
      intro o
      by_cases ho : o < 4
      · rw [if_pos ho, mbEx_findB o ho]
      · rw [if_neg ho, mbExClustersF]
        rw [if_pos (Or.inr (by omega))]
    simp only [hclFp]
    have hsizes : List.map (fun c =>
        (Finset.filter (fun o => mbExClustersF o = c) (Finset.range 4)).card)
        (List.range 2) = [1, 3] := by decide
    simp only [hsizes]
    rw [if_neg (by decide :
      ¬ ∃ c, c < 2 ∧ ([1, 3] : List ℕ).getD c 0 = 0)]
    rw [if_neg (by decide : ¬ (3 : ℕ) = 10 + 1)]
    refine ⟨_, _, _, rfl, ?_, ?_, ?_, ?_, ?_, ?_⟩
    · decide
    · decide
    · rfl
    · rfl
    · rw [computeCentroids]
      have hfil : (Finset.range 4).filter (fun o => mbExClustersF o = 0)
          = {0} := by decide
      simp only [hfil]
      rw [if_pos (by norm_num : 0 < 2 ∧ 0 < 1)]
      rw [if_pos (by decide : ([1, 3] : List ℕ).getD 0 0 ≠ 0)]
      rw [Finset.sum_singleton]
      norm_num [mbExData]
    · norm_num [mbExCenters]

end KmeansSpec
